import Mathlib

/-!
Verification of the PromptQL natural-language query pipeline.

This file gives a shallow embedding, in Lean 4, of the parts of the
pipeline that the verified properties talk about:

* the query executor's join, sort and aggregate operators
  (python-ai/tdbai/promptql/executor.py),
* the query planner's intent detection, entity extraction and step
  construction (python-ai/lumaai/promptql/planner.py),
* the query optimizer's rewrite passes (python-ai/tdbai/promptql/optimizer.py),
* the engine's exception boundary (python-ai/lumaai/promptql/engine.py),
* the query memory cache (python-ai/lumaai/promptql/context.py),
* the token-bucket rate limiter (python-ai/lumaai/promptql/llm.py).

Modelling conventions:

* Python dicts whose iteration order matters are modelled as association
  lists with Python dict semantics (assignment to an existing key keeps
  its position, assignment to a new key appends).
* Python floats are modelled as rationals; every float literal appearing
  in the modelled code is a small decimal constant that is exact in both
  representations.
* Python exceptions are modelled with the Except monad where a claim is
  about exception behaviour; operations that raise on inputs no claim
  exercises (for instance ordering mixed value types) are noted where
  they occur.
-/

set_option autoImplicit false

namespace PromptQL

/-! ## Generic helpers shared by several components -/

/-- Stable insertion sort: models Python sorted with a total key preorder.
A new element is placed before the first list element it is strictly
required to precede, so elements that compare equal keep their original
relative order (CPython sorted is stable, also with reverse=True). -/
def insertLe {α : Type} (le : α → α → Bool) (x : α) : List α → List α
  | [] => [x]
  | y :: ys => if le x y then x :: y :: ys else y :: insertLe le x ys

/-- Stable sort by the Boolean preorder le (see insertLe). -/
def sortLe {α : Type} (le : α → α → Bool) (l : List α) : List α :=
  l.foldr (insertLe le) []

/-- Append a value to the bucket of a key in an association list of
buckets, creating the bucket at the end if the key is new.  Models the
Python idiom: if key not in d: d[key] = []; d[key].append(v). -/
def bucketInsert {κ ρ : Type} [DecidableEq κ] :
    List (κ × List ρ) → κ → ρ → List (κ × List ρ)
  | [], k, v => [(k, [v])]
  | (k', vs) :: rest, k, v =>
    if k' = k then (k', vs ++ [v]) :: rest else (k', vs) :: bucketInsert rest k v

/-- Build buckets from a list of key/value pairs in order (Python
grouping loop over a dict of lists). -/
def groupBuckets {κ ρ : Type} [DecidableEq κ] (l : List (κ × ρ)) :
    List (κ × List ρ) :=
  l.foldl (fun gs p => bucketInsert gs p.1 p.2) []

/-- Set a key in an association list with Python dict assignment
semantics: an existing key keeps its position, a new key is appended. -/
def assocSet {β : Type} : List (String × β) → String → β → List (String × β)
  | [], k, v => [(k, v)]
  | (k', v') :: rest, k, v =>
    if k' = k then (k, v) :: rest else (k', v') :: assocSet rest k v

/-! ## Executor data model (tdbai/promptql/executor.py)

Record values.  The executor moves Python dicts of scalars around;
numbers are modelled as rationals (see the conventions above). -/

inductive Value where
  | null
  | num (q : ℚ)
  | str (s : String)
deriving DecidableEq

/-- A record is a Python dict from field names to values. -/
abbrev Record := List (String × Value)

/-- Python record.get(field): the stored value, or None when the field
is absent.  A stored None and a missing field are both Value.null, which
is exactly how every executor operator reads fields. -/
def recordGet (r : Record) (f : String) : Value :=
  (r.lookup f).getD Value.null

/-- Python dict merge, as in merged = left updated by right: left keys
keep their positions (right values override), right-only keys are
appended in right order. -/
def dictMerge (l r : Record) : Record :=
  l.map (fun p => (p.1, ((r.lookup p.1).getD p.2))) ++
    r.filter (fun q => (l.lookup q.1).isNone)

/-! ### QueryExecutor._execute_join

The right side of the join is obtained from the backend scan primitive;
per the design the backend is an external collaborator
(scan(collection) → list of records), so the executor is parametrised by
it.  The committed _execute_scan body is the degenerate backend that
returns an empty list for every collection. -/

/-- Hash index over the right side: buckets of right records keyed by
their join-field value, in scan order. -/
def buildRightIndex (rightData : List Record) (rightField : String) :
    List (Value × List Record) :=
  rightData.foldl (fun idx r => bucketInsert idx (recordGet r rightField) r) []

/-- Python right_index.get(key, []). -/
def indexGet (idx : List (Value × List Record)) (k : Value) : List Record :=
  (idx.lookup k).getD []

/-- Core of QueryExecutor._execute_join, with the right-side data already
fetched from the backend. -/
def executeJoinData (leftData rightData : List Record)
    (onLeft onRight : String) (joinType : String) : List Record :=
  if leftData.isEmpty then []
  else if rightData.isEmpty then
    (if joinType = "inner" then [] else leftData)
  else
    let rightIndex := buildRightIndex rightData onRight
    leftData.foldl
      (fun result leftRecord =>
        let rightMatches := indexGet rightIndex (recordGet leftRecord onLeft)
        if ¬ rightMatches.isEmpty then
          result ++ rightMatches.map (fun rightRecord => dictMerge leftRecord rightRecord)
        else if joinType = "left" then result ++ [leftRecord]
        else result)
      []

/-- QueryExecutor._execute_join: fetch the right collection from the
backend scan, then hash-join. -/
def executeJoin (scan : String → List Record) (leftData : List Record)
    (rightCollection : String) (onLeft onRight : String)
    (joinType : String) : List Record :=
  executeJoinData leftData (scan rightCollection) onLeft onRight joinType

/-- Right rows matching a given left row under the equality join key. -/
def joinMatches (rightData : List Record) (onRight : String) (v : Value) :
    List Record :=
  rightData.filter (fun t => recordGet t onRight = v)

/-! ### QueryExecutor._execute_sort -/

/-- Arbitrary rank used to totalise comparisons between values of
different kinds; Python raises TypeError there, and no verified property
compares mixed non-null values. -/
def valueRank : Value → Nat
  | .null => 0
  | .num _ => 1
  | .str _ => 2

/-- Strict comparison of two values as Python compares them inside sort
keys (numbers with numbers, strings with strings). -/
def valueLt : Value → Value → Bool
  | .num a, .num b => a < b
  | .str a, .str b => a < b
  | .null, .null => false
  | a, b => valueRank a < valueRank b

/-- Strict comparison of the (null-flag, value) pairs the sort key is
built from, as Python compares tuples. -/
def pairLt (p q : Nat × Value) : Bool :=
  p.1 < q.1 || (p.1 = q.1 && valueLt p.2 q.2)

/-- Lexicographic strict comparison of sort-key lists (Python list
comparison). -/
def keyLt : List (Nat × Value) → List (Nat × Value) → Bool
  | [], [] => false
  | [], _ :: _ => true
  | _ :: _, [] => false
  | p :: ps, q :: qs => if p = q then keyLt ps qs else pairLt p q

/-- The sort key of _execute_sort: per field, (1, None) for a null value
(the code comment says nulls last) and (0, value) otherwise. -/
def sortKeyOf (fields : List String) (r : Record) : List (Nat × Value) :=
  fields.map (fun f =>
    match recordGet r f with
    | .null => (1, Value.null)
    | v => (0, v))

/-- Python str.lower() on the character list of a string (ASCII; every
string the pipeline lowercases in the verified properties is ASCII). -/
def strLower (s : String) : List Char :=
  s.data.map Char.toLower

/-- QueryExecutor._execute_sort: Python sorted(data, key=sort_key,
reverse=(order.lower()=="desc")), a stable sort. -/
def executeSort (data : List Record) (fields : List String)
    (ord : String) : List Record :=
  if data.isEmpty || fields.isEmpty then data
  else
    let reverse := strLower ord = "desc".data
    sortLe
      (fun a b =>
        if reverse then ¬ keyLt (sortKeyOf fields a) (sortKeyOf fields b)
        else ¬ keyLt (sortKeyOf fields b) (sortKeyOf fields a))
      data

/-! ### QueryExecutor._apply_aggregate and _execute_aggregate -/

/-- Sum of a list of values: defined when all are numbers.  Python sum
raises TypeError on non-numeric values; that case is modelled as null
and is exercised by no verified property. -/
def valuesSum : List Value → Option ℚ
  | [] => some 0
  | .num q :: rest => (valuesSum rest).map (q + ·)
  | _ => none

/-- Minimum and maximum over homogeneous numeric or string values
(Python min/max raise on mixed types, modelled as null). -/
def valuesMin : List Value → Value
  | [] => .null
  | [v] => v
  | v :: rest =>
    let m := valuesMin rest
    if valueLt m v then m else v

def valuesMax : List Value → Value
  | [] => .null
  | [v] => v
  | v :: rest =>
    let m := valuesMax rest
    if valueLt m v then v else m

/-- QueryExecutor._apply_aggregate. -/
def applyAggregate (records : List Record) (function : String)
    (fieldName : Option String) : Value :=
  if function = "count" then
    match fieldName with
    | some f => .num ((records.filter (fun r => recordGet r f ≠ .null)).length : ℚ)
    | none => .num (records.length : ℚ)
  else
    match fieldName with
    | none => .null
    | some f =>
      let values := (records.map (fun r => recordGet r f)).filter (fun v => v ≠ .null)
      if values.isEmpty then .null
      else if function = "sum" then
        match valuesSum values with
        | some s => .num s
        | none => .null
      else if function = "avg" then
        match valuesSum values with
        | some s => .num (s / (values.length : ℚ))
        | none => .null
      else if function = "min" then valuesMin values
      else if function = "max" then valuesMax values
      else if function = "first" then values.headD .null
      else if function = "last" then values.getLastD .null
      else .null

/-- QueryExecutor._execute_aggregate: the guard if not data returns
None before _apply_aggregate is ever consulted. -/
def executeAggregate (data : List Record) (function : String)
    (fieldName : Option String) : Value :=
  if data.isEmpty then .null
  else applyAggregate data function fieldName

/-! ## Query planner (lumaai/promptql/planner.py)

The intent and entity tables are fixed regular expressions over the
lowercased prompt.  Every pattern is an alternation of literal words
guarded by word boundaries, optionally followed by a gap and a second
literal; they are embedded by their match semantics below. -/

/-- Python regex word character (ASCII). -/
def isWordChar (c : Char) : Bool :=
  c.isAlphanum || c = '_'

/-- The characters w occur in s starting at index i. -/
def matchesAt (s w : List Char) (i : Nat) : Bool :=
  (s.drop i).take w.length = w

/-- Occurrence of w at i with a word boundary on both sides, as the
regex anchors a literal that starts and ends with word characters. -/
def hasWordAt (s w : List Char) (i : Nat) : Bool :=
  matchesAt s w i &&
    (i == 0 || !isWordChar (s.getD (i - 1) ' ')) &&
    (i + w.length == s.length || !isWordChar (s.getD (i + w.length) ' '))

/-- re.search of a boundary-anchored literal word. -/
def containsWord (s w : List Char) : Bool :=
  (List.range (s.length + 1)).any (fun i => hasWordAt s w i)

/-- Python substring containment (the in operator, and regex literals
without boundaries). -/
def containsStr (s w : List Char) : Bool :=
  (List.range (s.length + 1)).any (fun i => matchesAt s w i)

def anyWord (s : List Char) (ws : List String) : Bool :=
  ws.any (fun w => containsWord s w.data)

def anySub (s : List Char) (ws : List String) : Bool :=
  ws.any (fun w => containsStr s w.data)

/-- A target character is found before any newline intervenes (regex
dot does not match newlines). -/
def charBeforeNewline : List Char → Char → Bool
  | [], _ => false
  | x :: xs, c => if x = c then true else if x = '\n' then false else charBeforeNewline xs c

/-- Match semantics of a pattern of the shape boundary-word, gap, then a
literal character (the retrieve pattern word .* question mark). -/
def wordThenChar (s : List Char) (ws : List String) (c : Char) : Bool :=
  (List.range (s.length + 1)).any (fun i =>
    ws.any (fun w =>
      hasWordAt s w.data i && charBeforeNewline (s.drop (i + w.data.length)) c))

/-- No newline occurs in s between indices a (inclusive) and b
(exclusive). -/
def noNewlineBetween (s : List Char) (a b : Nat) : Bool :=
  ((s.drop a).take (b - a)).all (fun c => c ≠ '\n')

/-- Match semantics of boundary-word, gap, boundary-word patterns (the
second compare and trend patterns). -/
def wordThenWord (s : List Char) (ws1 ws2 : List String) : Bool :=
  (List.range (s.length + 1)).any (fun i =>
    ws1.any (fun w1 =>
      hasWordAt s w1.data i &&
        (List.range (s.length + 1)).any (fun j =>
          (i + w1.data.length ≤ j : Bool) &&
            ws2.any (fun w2 => hasWordAt s w2.data j) &&
            noNewlineBetween s (i + w1.data.length) j)))

/-- QueryPlanner._detect_intents: INTENT_PATTERNS in dict order, one
entry per intent whose pattern list has a match; retrieve as the
default. -/
def detectIntents (prompt : String) : List String :=
  let s := strLower prompt
  let detected :=
    (if anyWord s ["show", "get", "find", "list", "display", "fetch", "retrieve", "select"]
        || wordThenChar s ["what", "which", "who"] '?' then ["retrieve"] else []) ++
    (if anyWord s ["count", "how many", "number of", "total"] then ["count"] else []) ++
    (if anyWord s ["sum", "total", "average", "avg", "mean", "min", "max", "median"]
        || anyWord s ["aggregate", "summarize", "statistics"] then ["aggregate"] else []) ++
    (if anyWord s ["compare", "versus", "vs", "difference", "between"]
        || wordThenWord s ["more than", "less than", "greater", "smaller"] ["average", "mean"]
      then ["compare"] else []) ++
    (if anyWord s ["trend", "over time", "growth", "change", "progression"]
        || wordThenWord s ["daily", "weekly", "monthly", "yearly"] ["pattern", "trend"]
      then ["trend"] else []) ++
    (if anyWord s ["group by", "grouped", "per", "by each", "breakdown"]
        || anyWord s ["categorize", "segment", "partition"] then ["group"] else []) ++
    (if anyWord s ["where", "filter", "only", "just", "exclude", "except"]
        || anyWord s ["last", "past", "recent", "since", "before", "after"]
      then ["filter"] else []) ++
    (if anyWord s ["join", "combine", "merge", "with", "related", "associated"]
        || anyWord s ["and their", "along with", "including"] then ["join"] else []) ++
    (if anyWord s ["sort", "order", "rank", "top", "bottom", "highest", "lowest"]
      then ["sort"] else [])
  if detected = [] then ["retrieve"] else detected

/-- Schema snapshot consumed by the planner: collection names and per
collection field names. -/
structure PSchema where
  collections : List String
  fields : List (String × List String)
deriving DecidableEq

def fieldsOf (sch : PSchema) (c : String) : List String :=
  (sch.fields.lookup c).getD []

/-- Entities extracted from the prompt. -/
structure Entities where
  collections : List String
  fields : List String
  values : List String
  operators : List String
deriving DecidableEq

/-- Python collection.lower().rstrip(&quot;s&quot;): drop every trailing s. -/
def stripTrailingS (l : List Char) : List Char :=
  (l.reverse.dropWhile (fun c => c = 's')).reverse

/-- The operator table of _extract_entities: alternations of plain
substrings (no word boundaries in these patterns), in source order. -/
def operatorPatterns : List (List String × String) :=
  [(["greater than", "more than", ">", "above"], ">"),
   (["less than", "fewer than", "<", "below"], "<"),
   (["equal", "is", "=", "same as"], "="),
   (["not equal", "!=", "different from"], "!="),
   (["contains", "includes", "like"], "LIKE"),
   (["between"], "BETWEEN"),
   (["in", "one of"], "IN")]

/-- Worker for the quoted-value scan.  The fuel argument makes the
recursion structural (it is initialised to the length of the scanned
list, which bounds the number of steps); when it runs out the scan is
over anyway. -/
def extractQuotedGo : Nat → List Char → List String
  | 0, _ => []
  | _ + 1, [] => []
  | fuel + 1, c :: rest =>
    if c = '"' || c = '\'' then
      let content := rest.takeWhile (fun x => x ≠ c)
      if content.isEmpty || (rest.drop content.length).isEmpty then
        extractQuotedGo fuel rest
      else String.mk content :: extractQuotedGo fuel (rest.drop (content.length + 1))
    else extractQuotedGo fuel rest

/-- re.findall of the quoted-value pattern over the raw prompt:
double-quoted or single-quoted nonempty spans up to the next matching
quote, leftmost and non-overlapping. -/
def extractQuoted (l : List Char) : List String :=
  extractQuotedGo l.length l

/-- Word boundary holds after the match, i.e. the next character is not
a word character (or the string ends). -/
def boundaryAfter : List Char → Bool
  | [] => true
  | c :: _ => !isWordChar c

/-- Worker for the number scan (fuel as in extractQuotedGo).  When the
boundary after the fraction fails the regex backtracks, so the match
falls back to the integer part alone. -/
def findNumbersGo : Nat → List Char → Bool → List String
  | 0, _, _ => []
  | _ + 1, [], _ => []
  | fuel + 1, c :: rest, prevWord =>
    if c.isDigit && !prevWord then
      let l := c :: rest
      let d := l.takeWhile Char.isDigit
      let afterD := l.drop d.length
      if afterD.head? = some '.' then
        let r2 := afterD.tail
        let e := r2.takeWhile Char.isDigit
        if !e.isEmpty && boundaryAfter (r2.drop e.length) then
          String.mk (d ++ '.' :: e) :: findNumbersGo fuel (r2.drop e.length) true
        else String.mk d :: findNumbersGo fuel afterD true
      else if boundaryAfter afterD then String.mk d :: findNumbersGo fuel afterD true
      else findNumbersGo fuel afterD true
    else findNumbersGo fuel rest (isWordChar c)

/-- re.findall of the number pattern (digits with an optional fraction,
word boundaries on both sides) over the raw prompt, leftmost and
non-overlapping.  The Boolean tracks whether the previous character was
a word character. -/
def findNumbers (l : List Char) (prevWord : Bool) : List String :=
  findNumbersGo l.length l prevWord

/-- QueryPlanner._extract_entities. -/
def extractEntities (prompt : String) (schema : Option PSchema) : Entities :=
  match schema with
  | none => ⟨[], [], [], []⟩
  | some sch =>
    let s := strLower prompt
    let cols := sch.collections.foldl
      (fun acc c =>
        let acc := if containsStr s (strLower c) then acc ++ [c] else acc
        if containsStr s (stripTrailingS (strLower c)) then acc ++ [c] else acc)
      []
    let flds := sch.collections.foldl
      (fun acc c => acc ++ (fieldsOf sch c).filter (fun f => containsStr s (strLower f)))
      []
    let ops := operatorPatterns.foldl
      (fun acc p => if anySub s p.1 then acc ++ [p.2] else acc)
      []
    let quoted := extractQuoted prompt.data
    let nums := findNumbers prompt.data false
    ⟨cols, flds, quoted ++ nums, ops⟩

/-- Relative or absolute time constraint (planner TIME_PATTERNS or a
date literal). -/
inductive TimeConstraint where
  | relative (start stop phrase : String)
  | absolute (dates : List String)
deriving DecidableEq

/-- TIME_PATTERNS in dict order. -/
def timePatterns : List (String × String × String) :=
  [("today", "now", "1d"), ("yesterday", "1d", "2d"),
   ("this week", "now", "1w"), ("last week", "1w", "2w"),
   ("this month", "now", "1M"), ("last month", "1M", "2M"),
   ("this year", "now", "1y"), ("last year", "1y", "2y"),
   ("last 7 days", "now", "7d"), ("last 30 days", "now", "30d"),
   ("last 90 days", "now", "90d")]

/-- The date pattern matches at the head of l (four digits, dash, two
digits, dash, two digits, then a word boundary). -/
def dateAtHead (l : List Char) : Bool :=
  ((l.take 10).length == 10) &&
    (List.range 10).all (fun i =>
      if i = 4 || i = 7 then l.getD i ' ' = '-' else (l.getD i ' ').isDigit) &&
    boundaryAfter (l.drop 10)

/-- Worker for the absolute-date scan (fuel as in extractQuotedGo). -/
def findDatesGo : Nat → List Char → Bool → List String
  | 0, _, _ => []
  | _ + 1, [], _ => []
  | fuel + 1, c :: rest, prevWord =>
    if !prevWord && dateAtHead (c :: rest) then
      String.mk ((c :: rest).take 10) :: findDatesGo fuel ((c :: rest).drop 10) true
    else findDatesGo fuel rest (isWordChar c)

/-- re.findall of the absolute-date pattern over the raw prompt. -/
def findDates (l : List Char) (prevWord : Bool) : List String :=
  findDatesGo l.length l prevWord

/-- QueryPlanner._extract_time_constraints. -/
def extractTimeConstraints (prompt : String) : Option TimeConstraint :=
  let s := strLower prompt
  match timePatterns.find? (fun p => containsStr s p.1.data) with
  | some p => some (.relative p.2.1 p.2.2 p.1)
  | none =>
    match findDates prompt.data false with
    | [] => none
    | dates => some (.absolute dates)

/-- Filter condition as the planner builds it (values are the literal
strings the entity extractor found). -/
structure Condition where
  field : String
  operator : String
  value : String
deriving DecidableEq

/-- QueryPlanner._build_filter_conditions: pair the i-th field with the
i-th operator (default =) and the i-th value, skipping fields with no
value. -/
def buildFilterConditions (_prompt : String) (entities : Entities) :
    List Condition :=
  entities.fields.enum.foldl
    (fun conds p =>
      match entities.values.get? p.1 with
      | some v => conds ++ [⟨p.2, entities.operators.getD p.1 "=", v⟩]
      | none => conds)
    []

/-- QueryPlanner._detect_aggregation (the AggregationType value, as its
string). -/
def detectAggregation (prompt : String) : String :=
  let s := strLower prompt
  if anyWord s ["count", "how many"] then "count"
  else if anyWord s ["sum", "total"] then "sum"
  else if anyWord s ["average", "avg", "mean"] then "avg"
  else if anyWord s ["min", "minimum", "lowest"] then "min"
  else if anyWord s ["max", "maximum", "highest"] then "max"
  else if anyWord s ["median"] then "median"
  else if anyWord s ["std", "standard deviation"] then "stddev"
  else if anyWord s ["distinct", "unique"] then "distinct"
  else "count"

/-- Capture of the by-field regex (boundary, the word by, whitespace,
then a word-character run), searching leftmost over s. -/
def byCapture (s : List Char) : Option String :=
  (List.range (s.length + 1)).findSome? (fun i =>
    if (i == 0 || !isWordChar (s.getD (i - 1) ' ')) && matchesAt s ['b', 'y'] i then
      let afterBy := s.drop (i + 2)
      let ws := afterBy.takeWhile Char.isWhitespace
      if ws.isEmpty then none
      else
        let wrd := (afterBy.drop ws.length).takeWhile isWordChar
        if wrd.isEmpty then none else some (String.mk wrd)
    else none)

/-- QueryPlanner._extract_group_fields. -/
def extractGroupFields (prompt : String) (entities : Entities) : List String :=
  match byCapture (strLower prompt) with
  | some g => [g]
  | none =>
    match entities.fields with
    | [] => ["id"]
    | f :: _ => [f]

structure SortInfo where
  field : String
  order : String
deriving DecidableEq

/-- QueryPlanner._extract_sort_info: substring tests for the direction,
then the by-field capture with created_at as the default. -/
def extractSortInfo (prompt : String) : SortInfo :=
  let s := strLower prompt
  let ord :=
    if anySub s ["top", "highest", "most", "desc"] then "DESC"
    else if anySub s ["bottom", "lowest", "least", "asc"] then "ASC"
    else "DESC"
  ⟨(byCapture s).getD "created_at", ord⟩

/-- Python int() of a digit run. -/
def digitsToNat (l : List Char) : Nat :=
  l.foldl (fun n c => n * 10 + (c.toNat - 48)) 0

/-- Capture of the limit regex (boundary, one of top, first or limit,
whitespace, digits, boundary), searching leftmost over s. -/
def limitCapture (s : List Char) : Option Nat :=
  (List.range (s.length + 1)).findSome? (fun i =>
    (["top", "first", "limit"].findSome? (fun w =>
      if (i == 0 || !isWordChar (s.getD (i - 1) ' ')) && matchesAt s w.data i then
        let after := s.drop (i + w.data.length)
        let ws := after.takeWhile Char.isWhitespace
        if ws.isEmpty then none
        else
          let ds := (after.drop ws.length).takeWhile Char.isDigit
          if ds.isEmpty then none
          else if boundaryAfter (after.drop (ws.length + ds.length)) then
            some (digitsToNat ds)
          else none
      else none)))

/-- Worker for the plain integer scan (fuel as in extractQuotedGo). -/
def findIntsGo : Nat → List Char → Bool → List String
  | 0, _, _ => []
  | _ + 1, [], _ => []
  | fuel + 1, c :: rest, prevWord =>
    if c.isDigit && !prevWord then
      let l := c :: rest
      let d := l.takeWhile Char.isDigit
      let afterD := l.drop d.length
      if boundaryAfter afterD then String.mk d :: findIntsGo fuel afterD true
      else findIntsGo fuel afterD true
    else findIntsGo fuel rest (isWordChar c)

/-- re.findall of the plain integer pattern (digits in word boundaries)
over the raw prompt. -/
def findInts (l : List Char) (prevWord : Bool) : List String :=
  findIntsGo l.length l prevWord

/-- QueryPlanner._extract_limit. -/
def extractLimit (prompt : String) : Option Nat :=
  let s := strLower prompt
  match limitCapture s with
  | some n => some n
  | none =>
    if containsStr s "top".data || containsStr s "first".data then
      match findInts prompt.data false with
      | [] => none
      | d :: _ => some (digitsToNat d.data)
    else none

/-- QueryPlanner._infer_collection. -/
def inferCollection (prompt : String) (schema : Option PSchema) : String :=
  match schema with
  | none => "default"
  | some sch =>
    let s := strLower prompt
    match sch.collections.find? (fun c =>
        ((String.mk (strLower c)).splitOn "_").any (fun w => containsStr s w.data)) with
    | some c => c
    | none =>
      match sch.collections with
      | [] => "default"
      | c :: _ => c

/-- QueryPlanner._understand_query. -/
def understandQuery (prompt : String) : String :=
  let intents := detectIntents prompt
  if intents.contains "compare" then "Comparing data based on: " ++ prompt
  else if intents.contains "aggregate" then "Calculating aggregated metrics: " ++ prompt
  else if intents.contains "trend" then "Analyzing trends over time: " ++ prompt
  else if intents.contains "count" then "Counting records: " ++ prompt
  else if intents.contains "retrieve" then "Retrieving data: " ++ prompt
  else "Processing query: " ++ prompt

/-! ### Plan construction -/

/-- StepType enum of the planner. -/
inductive StepType where
  | fetch | filter | join | aggregate | sort | limit
  | transform | compute | compare | subquery
deriving DecidableEq

/-- QueryPlanner._estimate_step_cost: fixed per-type base cost (the
source dict covers every type; the default of 1.0 is unreachable).  The
source float literals are exact rationals, written with mkRat so that
they evaluate by kernel reduction. -/
def stepCost : StepType → ℚ
  | .fetch => 1
  | .filter => mkRat 1 2
  | .join => 3
  | .aggregate => mkRat 3 2
  | .sort => 1
  | .limit => mkRat 1 10
  | .transform => mkRat 1 2
  | .compute => 1
  | .compare => 2
  | .subquery => 2

/-- Step parameters, by originating stage (the source carries an untyped
params dict; these are the exact payloads _build_steps stores). -/
inductive StepParams where
  | fetchSrc (collection : String)
  | timeFilter (time : TimeConstraint) (collection : String)
  | filterConds (conditions : List Condition)
  | joinWith (collection : String) (joinType : String)
  | groupBy (fields : List String)
  | aggregateFn (function : String)
  | compareTy (ctype : String)
  | sortBy (info : SortInfo)
  | limitTo (limit : Nat)
deriving DecidableEq

/-- Python step.params.get(&quot;collection&quot;). -/
def collectionParam : StepParams → Option String
  | .fetchSrc c => some c
  | .timeFilter _ c => some c
  | .joinWith c _ => some c
  | _ => none

/-- A plan step.  The source renders the id as the string step_n for
the n-th call of _create_step; distinctness and ordering of the step_n
strings coincide with those of the counters, so ids are modelled by the
counter value. -/
structure QueryStep where
  id : Nat
  type : StepType
  description : String
  params : StepParams
  dependencies : List Nat
  estimatedCost : ℚ
deriving DecidableEq

structure QueryPlan where
  query : String
  understanding : String
  steps : List QueryStep
  requiresReasoning : Bool
  canParallelize : Bool
  estimatedCost : ℚ
  targetCollections : List String
deriving DecidableEq

/-- QueryPlanner._create_step for a given pre-increment counter value:
the id is the incremented counter, the cost the per-type base cost. -/
def mkStep (counter : Nat) (ty : StepType) (desc : String)
    (params : StepParams) (deps : List Nat) : QueryStep :=
  ⟨counter + 1, ty, desc, params, deps, stepCost ty⟩

/-- Builder state: the planner step counter plus the steps list being
grown. -/
structure BuildAcc where
  counter : Nat
  steps : List QueryStep
deriving DecidableEq

/-- Append one step created by _create_step. -/
def pushStep (acc : BuildAcc) (ty : StepType) (desc : String)
    (params : StepParams) (deps : List Nat) : BuildAcc :=
  ⟨acc.counter + 1, acc.steps ++ [mkStep acc.counter ty desc params deps]⟩

/-- Python steps[-1].id (the builder only reads it when steps is
nonempty). -/
def lastId (acc : BuildAcc) : Nat :=
  ((acc.steps.getLast?).map QueryStep.id).getD 0

/-- The phrase rendered into the time-filter description
(time_constraints.get(&quot;phrase&quot;, &quot;custom&quot;)). -/
def timePhrase : TimeConstraint → String
  | .relative _ _ p => p
  | .absolute _ => "custom"

/-- Step 1 of _build_steps: the FETCH step (empty dependency list, the
default of _create_step). -/
def stageFetch (primary : String) : BuildAcc :=
  pushStep ⟨0, []⟩ .fetch ("Fetch data from " ++ primary) (.fetchSrc primary) []

/-- Step 2: the time filter depends on fetch_step.id, which at this
point is the id of the last (only) appended step. -/
def stageTime (primary : String) (timeConstraints : Option TimeConstraint)
    (acc : BuildAcc) : BuildAcc :=
  match timeConstraints with
  | some tc =>
    pushStep acc .filter ("Apply time filter: " ++ timePhrase tc)
      (.timeFilter tc primary) [lastId acc]
  | none => acc

/-- Step 3: explicit filter conditions. -/
def stageFilter (prompt : String) (intents : List String) (entities : Entities)
    (acc : BuildAcc) : BuildAcc :=
  if intents.contains "filter" then
    let conds := buildFilterConditions prompt entities
    if ¬ conds.isEmpty then
      pushStep acc .filter "Apply filters" (.filterConds conds) [lastId acc]
    else acc
  else acc

/-- Step 4: one JOIN step per secondary collection. -/
def stageJoins (intents : List String) (collections : List String)
    (acc : BuildAcc) : BuildAcc :=
  if intents.contains "join" && collections.length > 1 then
    collections.tail.foldl
      (fun a sec =>
        pushStep a .join ("Join with " ++ sec) (.joinWith sec "inner") [lastId a])
      acc
  else acc

/-- Step 5: grouping. -/
def stageGroup (prompt : String) (intents : List String) (entities : Entities)
    (acc : BuildAcc) : BuildAcc :=
  if intents.contains "group" then
    pushStep acc .aggregate "Group by fields"
      (.groupBy (extractGroupFields prompt entities)) [lastId acc]
  else acc

/-- Step 6: aggregation. -/
def stageAgg (prompt : String) (intents : List String) (acc : BuildAcc) :
    BuildAcc :=
  if intents.contains "aggregate" || intents.contains "count" then
    pushStep acc .aggregate ("Calculate " ++ detectAggregation prompt)
      (.aggregateFn (detectAggregation prompt)) [lastId acc]
  else acc

/-- Step 7: comparison. -/
def stageCompare (intents : List String) (acc : BuildAcc) : BuildAcc :=
  if intents.contains "compare" then
    pushStep acc .compare "Compare datasets" (.compareTy "diff") [lastId acc]
  else acc

/-- Step 8: sorting. -/
def stageSort (prompt : String) (intents : List String) (acc : BuildAcc) :
    BuildAcc :=
  if intents.contains "sort" then
    let si := extractSortInfo prompt
    pushStep acc .sort ("Sort by " ++ si.field ++ " " ++ si.order)
      (.sortBy si) [lastId acc]
  else acc

/-- Step 9: the result limit. -/
def stageLimit (prompt : String) (acc : BuildAcc) : BuildAcc :=
  match extractLimit prompt with
  | some n =>
    pushStep acc .limit ("Limit to " ++ toString n ++ " results")
      (.limitTo n) [lastId acc]
  | none => acc

/-- QueryPlanner._build_steps, threading the step counter exactly as the
source appends steps, stage by stage in the fixed source order.
Descriptions that interpolate a Python repr of a list (filter
conditions, group fields) are abbreviated; nothing proved below reads a
description. -/
def buildAcc (prompt : String) (intents : List String) (entities : Entities)
    (timeConstraints : Option TimeConstraint) (schema : Option PSchema)
    (_context : Option Unit) : BuildAcc :=
  let collections := entities.collections
  let primary :=
    match collections with
    | c :: _ => c
    | [] => inferCollection prompt schema
  stageLimit prompt
    (stageSort prompt intents
      (stageCompare intents
        (stageAgg prompt intents
          (stageGroup prompt intents entities
            (stageJoins intents collections
              (stageFilter prompt intents entities
                (stageTime primary timeConstraints
                  (stageFetch primary))))))))

def buildSteps (prompt : String) (intents : List String) (entities : Entities)
    (timeConstraints : Option TimeConstraint) (schema : Option PSchema)
    (context : Option Unit) : List QueryStep :=
  (buildAcc prompt intents entities timeConstraints schema context).steps

/-- QueryPlanner._requires_reasoning. -/
def requiresReasoningOf (intents : List String) (steps : List QueryStep) : Bool :=
  intents.any (fun i => i == "compare" || i == "trend" || i == "join") ||
    steps.length > 5 ||
    steps.any (fun s => s.type == .subquery)

/-- Canonical form of a dependency list as _can_parallelize keys
groups: Python joins the sorted step_n strings with commas; that
rendering is injective, so grouping by it coincides with grouping by
the sorted list of numeric ids. -/
def depKey (deps : List Nat) : List Nat :=
  sortLe (fun a b => a ≤ b) deps

/-- QueryPlanner._can_parallelize: group step ids by dependency key and
look for a group with more than one member. -/
def canParallelizeOf (steps : List QueryStep) : Bool :=
  (groupBuckets (steps.map (fun s => (depKey s.dependencies, s.id)))).any
    (fun g => g.2.length > 1)

/-- Query execution modes of the engine (unused by plan construction,
threaded through faithfully). -/
inductive Mode where
  | simple | reasoning | conversational | exploratory
deriving DecidableEq

/-- Keep the first occurrence of each element.  Python builds
target_collections as list(set(...)), whose order is unspecified; no
verified property reads this field. -/
def dedupKeepFirst (l : List String) : List String :=
  (l.foldl (fun acc c => if acc.contains c then acc else acc ++ [c]) [])

/-- QueryPlanner.create_plan. -/
def createPlan (prompt : String) (schema : Option PSchema)
    (context : Option Unit) (_mode : Mode) : QueryPlan :=
  let understanding := understandQuery prompt
  let intents := detectIntents prompt
  let entities := extractEntities prompt schema
  let timeConstraints := extractTimeConstraints prompt
  let steps := buildSteps prompt intents entities timeConstraints schema context
  { query := prompt
    understanding := understanding
    steps := steps
    requiresReasoning := requiresReasoningOf intents steps
    canParallelize := canParallelizeOf steps
    estimatedCost := (steps.map QueryStep.estimatedCost).sum
    targetCollections :=
      dedupKeepFirst
        (((steps.filterMap (fun s => collectionParam s.params)).filter
          (fun c => c ≠ ""))) }

/-! ## Query optimizer (tdbai/promptql/optimizer.py)

The optimizer works on dynamically shaped plan steps and probes them
with hasattr; an attribute a step may lack is modelled as an Option
field whose isSome plays the hasattr role.  Steps without a steps
attribute on the plan pass through every rewrite unchanged and record
nothing, so plans are modelled with their steps list. -/

/-- A filter condition as the optimizer reads it: cond.get(&quot;field&quot;,
&quot;&quot;) is the only key it consults. -/
structure OCond where
  field : String
deriving DecidableEq

/-- A dynamically shaped optimizer plan step. -/
structure OStep where
  operation : Option String
  conditions : Option (List OCond)
  fieldsAttr : Option (List String)
  functionAttr : Option String
  correlation : Option String
  useIndex : Bool := false
  partialAgg : Bool := false
deriving DecidableEq

/-- An optimizer plan: the steps list and the optional intent attribute
(read only for index-recommendation collection names). -/
structure OPlan where
  steps : List OStep
  intent : Option String
deriving DecidableEq

/-- Schema as the optimizer reads it: named indexes with their field
lists. -/
structure OSchema where
  indexes : List (String × List String)
deriving DecidableEq

/-- Cost model constants of AIQueryOptimizer. -/
def seqPageCost : ℚ := 1
def randomPageCost : ℚ := 4
def cpuTupleCost : ℚ := mkRat 1 100
def cpuIndexCost : ℚ := mkRat 1 200
def cpuOperatorCost : ℚ := mkRat 1 400

structure OCostEstimate where
  startupCost : ℚ
  totalCost : ℚ
  rows : Nat
  width : Nat
deriving DecidableEq

/-- AIQueryOptimizer._estimate_step_cost.  The parameter log2of100
stands for the float math.log2(100) in the sort entry; no verified
property depends on its value. -/
def estimateStepCost (log2of100 : ℚ) (s : OStep) : ℚ :=
  let op := String.mk (strLower ((s.operation).getD ""))
  if op = "scan" then seqPageCost * 100
  else if op = "index_scan" then randomPageCost * 10
  else if op = "filter" then cpuTupleCost * 100
  else if op = "sort" then cpuTupleCost * 100 * log2of100
  else if op = "group" then cpuTupleCost * 100
  else if op = "aggregate" then cpuTupleCost * 100
  else if op = "join" then cpuTupleCost * 10000
  else if op = "limit" then cpuTupleCost
  else if op = "project" then cpuTupleCost * 100
  else 1

/-- AIQueryOptimizer._estimate_cost.  Python reads step.operation
without a hasattr guard in the selectivity check (an AttributeError on
operation-less steps); the model compares the optional attribute.
int(rows * 0.1) on the reachable row values is division by ten. -/
def estimateCost (log2of100 : ℚ) (p : OPlan) (_schema : Option OSchema) :
    OCostEstimate :=
  let totalCost := (p.steps.map (fun s => estimateStepCost log2of100 s)).sum
  let rows := p.steps.foldl
    (fun r s => if s.operation = some "filter" then r / 10 else r) 1000
  ⟨0, max totalCost (mkRat 1 100), max rows 1, 100⟩

/-- AIQueryOptimizer._pushdown_predicates: split out the filter steps
and re-emit them right after every scan; if no scan exists, prepend
them.  The pushed flag is set on every plan that has at least one
filter step and at least one other step. -/
def pushdownPredicates (p : OPlan) : OPlan × Bool :=
  let filterSteps := p.steps.filter (fun s => s.operation == some "filter")
  let otherSteps := p.steps.filter (fun s => !(s.operation == some "filter"))
  if filterSteps.isEmpty || otherSteps.isEmpty then (p, false)
  else
    let scanned := otherSteps.foldl
      (fun (acc : List OStep × Bool) s =>
        if s.operation == some "scan" || s.operation == some "index_scan" then
          (acc.1 ++ [s] ++ filterSteps, true)
        else (acc.1 ++ [s], acc.2))
      ([], false)
    let reordered := if scanned.2 then scanned.1 else filterSteps ++ otherSteps
    ({ p with steps := reordered }, true)

/-- AIQueryOptimizer._reorder_joins: a stub that only flags itself when
at least two join steps exist, leaving the plan unchanged. -/
def reorderJoins (p : OPlan) (_schema : Option OSchema) : OPlan × Bool :=
  let joinSteps := p.steps.filter (fun s => s.operation == some "join")
  if joinSteps.length ≤ 1 then (p, false) else (p, true)

/-- AIQueryOptimizer._prune_projections: collect every fields attribute
as the required columns (a set, so the reversed iteration order is
irrelevant), then drop project fields outside it. -/
def pruneProjections (p : OPlan) (_schema : Option OSchema) : OPlan × Bool :=
  let requiredCols := p.steps.foldl (fun acc s => acc ++ (s.fieldsAttr.getD [])) []
  let pruned := p.steps.foldl
    (fun (acc : List OStep × Bool) s =>
      if s.operation == some "project" then
        match s.fieldsAttr with
        | some fs =>
          let fs' := fs.filter (fun f => requiredCols.contains f || f == "*")
          (acc.1 ++ [{ s with fieldsAttr := some fs' }],
            acc.2 || fs'.length < fs.length)
        | none => (acc.1 ++ [s], acc.2)
      else (acc.1 ++ [s], acc.2))
    ([], false)
  ({ p with steps := pruned.1 }, pruned.2)

/-- AIQueryOptimizer._has_index. -/
def hasIndex (c : OCond) (schema : Option OSchema) : Bool :=
  match schema with
  | none => false
  | some sch => sch.indexes.any (fun idx => idx.2.contains c.field)

/-- AIQueryOptimizer._select_indexes. -/
def selectIndexes (p : OPlan) (schema : Option OSchema) : OPlan × Bool :=
  let walked := p.steps.foldl
    (fun (acc : List OStep × Bool) s =>
      if s.operation == some "filter" then
        match s.conditions with
        | some conds =>
          let hit := conds.any (fun c => hasIndex c schema)
          ((acc.1 ++ [if hit then { s with useIndex := true } else s]),
            acc.2 || hit)
        | none => (acc.1 ++ [s], acc.2)
      else (acc.1 ++ [s], acc.2))
    ([], false)
  ({ p with steps := walked.1 }, walked.2)

/-- AIQueryOptimizer._optimize_aggregations. -/
def optimizeAggregations (p : OPlan) (_schema : Option OSchema) : OPlan × Bool :=
  let walked := p.steps.foldl
    (fun (acc : List OStep × Bool) s =>
      if s.operation == some "aggregate" then
        match s.functionAttr with
        | some f =>
          if f = "count" || f = "sum" || f = "min" || f = "max" then
            (acc.1 ++ [{ s with partialAgg := true }], true)
          else (acc.1 ++ [s], acc.2)
        | none => (acc.1 ++ [s], acc.2)
      else (acc.1 ++ [s], acc.2))
    ([], false)
  ({ p with steps := walked.1 }, walked.2)

/-- AIQueryOptimizer._flatten_subqueries. -/
def flattenSubqueries (p : OPlan) : OPlan × Bool :=
  let walked := p.steps.foldl
    (fun (acc : List OStep × Bool) s =>
      if s.operation == some "subquery" && s.correlation == some "simple" then
        (acc.1 ++ [{ s with operation := some "semi_join" }], true)
      else (acc.1 ++ [s], acc.2))
    ([], false)
  ({ p with steps := walked.1 }, walked.2)

/-- Advisory index recommendation. -/
structure IndexRec where
  collection : String
  fields : List String
  indexType : String
  estimatedBenefit : ℚ
  reason : String
deriving DecidableEq

/-- AIQueryOptimizer._has_existing_index. -/
def hasExistingIndex (f : String) (schema : Option OSchema) : Bool :=
  match schema with
  | none => false
  | some sch => sch.indexes.any (fun idx => idx.2.contains f)

/-- Bump a counter in an insertion-ordered association list (Python
dict-of-counts). -/
def bumpCount (l : List (String × Nat)) (k : String) : List (String × Nat) :=
  match l.lookup k with
  | some n => assocSet l k (n + 1)
  | none => l ++ [(k, 1)]

/-- Plan collection used in recommendations (plan.intent when present,
unknown otherwise). -/
def planCollection (p : OPlan) : String :=
  p.intent.getD "unknown"

/-- AIQueryOptimizer._generate_index_recommendations. -/
def generateIndexRecommendations (p : OPlan) (schema : Option OSchema) :
    List IndexRec :=
  let filterFields := p.steps.foldl
    (fun acc s =>
      if s.operation == some "filter" then
        (s.conditions.getD []).foldl
          (fun a c => if c.field ≠ "" then bumpCount a c.field else a) acc
      else acc)
    []
  let sortFields := p.steps.foldl
    (fun acc s =>
      if s.operation == some "sort" then acc ++ (s.fieldsAttr.getD []) else acc)
    []
  let groupFields := p.steps.foldl
    (fun acc s =>
      if s.operation == some "group" then acc ++ (s.fieldsAttr.getD []) else acc)
    []
  let recs1 := filterFields.foldl
    (fun acc p2 =>
      if !hasExistingIndex p2.1 schema then
        acc ++ [⟨planCollection p, [p2.1], "btree", (mkRat 1 2) * p2.2,
          "Field " ++ p2.1 ++ " used in filter conditions"⟩]
      else acc)
    []
  let recs2 : List IndexRec :=
    if ¬ sortFields.isEmpty ∧ ¬ filterFields.isEmpty then
      let composite : List String :=
        (filterFields.map Prod.fst).take 2 ++ sortFields.take 1
      if composite.length > 1 then
        [⟨planCollection p, composite, "btree", mkRat 7 10,
          "Composite index for filter + sort optimization"⟩]
      else []
    else []
  let recs3 : List IndexRec :=
    if ¬ groupFields.isEmpty then
      [⟨planCollection p, groupFields, "btree", mkRat 3 5,
        "Index for GROUP BY optimization"⟩]
    else []
  recs1 ++ recs2 ++ recs3

structure OptimizationOutcome where
  originalPlan : OPlan
  optimizedPlan : OPlan
  costReduction : ℚ
  optimizationsApplied : List String
  indexRecommendations : List IndexRec
  estimatedSpeedup : ℚ
  confidence : ℚ
deriving DecidableEq

/-- AIQueryOptimizer.optimize: the six rewrite passes in fixed order,
each appending its name when its flag comes back true. -/
def optimize (log2of100 : ℚ) (p : OPlan) (schema : Option OSchema) :
    OptimizationOutcome :=
  let originalCost := estimateCost log2of100 p schema
  let r1 := pushdownPredicates p
  let r2 := reorderJoins r1.1 schema
  let r3 := pruneProjections r2.1 schema
  let r4 := selectIndexes r3.1 schema
  let r5 := optimizeAggregations r4.1 schema
  let r6 := flattenSubqueries r5.1
  let optimizations :=
    (if r1.2 then ["predicate_pushdown"] else []) ++
    (if r2.2 then ["join_reorder"] else []) ++
    (if r3.2 then ["projection_pruning"] else []) ++
    (if r4.2 then ["index_selection"] else []) ++
    (if r5.2 then ["aggregation_optimization"] else []) ++
    (if r6.2 then ["subquery_flattening"] else [])
  let optimizedCost := estimateCost log2of100 r6.1 schema
  { originalPlan := p
    optimizedPlan := r6.1
    costReduction :=
      (originalCost.totalCost - optimizedCost.totalCost) /
        max originalCost.totalCost (mkRat 1 1000)
    optimizationsApplied := optimizations
    indexRecommendations := generateIndexRecommendations p schema
    estimatedSpeedup :=
      originalCost.totalCost / max optimizedCost.totalCost (mkRat 1 1000)
    confidence := mkRat 17 20 }

/-! ## Engine boundary (lumaai/promptql/engine.py)

The engine orchestrates collaborators (schema inference, planner,
reasoner, optimizer, executor, suggestion generation, conversation
context).  Each can raise; raising is modelled with Except.  The query
entry point wraps its whole body in try/except; explain and suggest
have no handler. -/

/-- Exceptions as the engine distinguishes them: asyncio.TimeoutError
versus everything else (carrying its str rendering, which may be
empty). -/
inductive Exc where
  | timeout
  | err (msg : String)
deriving DecidableEq

/-- The error string the engine stores for a caught exception. -/
def excMessage : Exc → String
  | .timeout => "Query timed out"
  | .err m => m

/-- Engine query result (fields a verified property reads). -/
structure EQueryResult (ρ : Type) where
  success : Bool
  data : Option ρ
  error : Option String
  suggestions : List String
  cached : Bool
deriving DecidableEq

/-- The engine's collaborators, each a possibly raising operation, plus
the configuration flags the query path consults.  σ is the schema
representation, π the plan representation, ρ the result data. -/
structure EngineCollabs (σ π ρ : Type) where
  enableCaching : Bool
  enableSchemaInference : Bool
  enableOptimization : Bool
  parallelExecution : Bool
  cacheGet : String → Option (EQueryResult ρ)
  addQuery : Except Exc Unit
  inferSchema : Except Exc σ
  createPlanC : String → Option σ → Except Exc π
  requiresReasoningOfPlan : π → Bool
  reasonC : String → π → Option σ → Except Exc (List String)
  optimizeC : π → Option σ → Except Exc π
  canParallelizePlan : π → Bool
  executeParallelC : π → Except Exc ρ
  executeC : π → Except Exc ρ
  suggestionsC : String → ρ → Option σ → Except Exc (List String)
  addResult : Except Exc Unit
  suggestCompletionsC : String → Option σ → Except Exc (List String)

/-- The body of PromptQLEngine.query inside its try block (statistics
updates and cache writes mutate engine state the claims do not read and
cannot raise; they are omitted).  The cache key hashes prompt and
context; it is modelled by the prompt. -/
def queryBody {σ π ρ : Type} (C : EngineCollabs σ π ρ) (prompt : String)
    (mode : Mode) : Except Exc (EQueryResult ρ) := do
  if C.enableCaching then
    match C.cacheGet prompt with
    | some cached => return { cached with cached := true }
    | none => pure ()
  C.addQuery
  let schema ←
    if C.enableSchemaInference then do
      let s ← C.inferSchema
      pure (some s)
    else pure none
  let plan ← C.createPlanC prompt schema
  let _reasoningChain ←
    if mode == Mode.reasoning && C.requiresReasoningOfPlan plan then do
      let r ← C.reasonC prompt plan schema
      pure (some r)
    else pure (none : Option (List String))
  let plan ←
    if C.enableOptimization then C.optimizeC plan schema else pure plan
  let data ←
    if C.parallelExecution && C.canParallelizePlan plan then
      C.executeParallelC plan
    else C.executeC plan
  let suggestions ← C.suggestionsC prompt data schema
  C.addResult
  pure { success := true
         data := some data
         error := none
         suggestions := suggestions
         cached := false }

/-- PromptQLEngine.query: the body with the surrounding
try/except that converts any exception into a failed result. -/
def engineQuery {σ π ρ : Type} (C : EngineCollabs σ π ρ) (prompt : String)
    (mode : Mode) : EQueryResult ρ :=
  match queryBody C prompt mode with
  | .ok r => r
  | .error e =>
    { success := false, data := none, error := some (excMessage e),
      suggestions := [], cached := false }

/-- PromptQLEngine.explain: no exception handler; the explain payload is
modelled by the plan and the reasoning chain it renders. -/
def engineExplain {σ π ρ : Type} (C : EngineCollabs σ π ρ) (prompt : String) :
    Except Exc (π × List String) := do
  let schema ← C.inferSchema
  let plan ← C.createPlanC prompt (some schema)
  let reasoning ← C.reasonC prompt plan (some schema)
  pure (plan, reasoning)

/-- PromptQLEngine.suggest: no exception handler. -/
def engineSuggest {σ π ρ : Type} (C : EngineCollabs σ π ρ)
    (incompleteQuery : String) : Except Exc (List String) := do
  let schema ← C.inferSchema
  C.suggestCompletionsC incompleteQuery (some schema)

/-! ## Query memory (lumaai/promptql/context.py)

Timestamps are explicit rational parameters (datetime.now() at the call
site); the cache key md5(normalized_query + colon + schema_hash) is
modelled by its preimage, which determines it up to hash collisions. -/

structure MemoryEntry (ρ : Type) where
  query : String
  normalizedQuery : String
  intent : String
  result : ρ
  executionTimeMs : ℚ
  schemaHash : String
  createdAt : ℚ
  accessCount : Nat
  lastAccessed : ℚ
deriving DecidableEq

structure QueryMemory (ρ : Type) where
  maxSize : Nat
  memories : List (String × MemoryEntry ρ)
deriving DecidableEq

def mkKey (nq sh : String) : String :=
  nq ++ ":" ++ sh

/-- QueryMemory._maybe_evict: when over capacity, drop the entries with
the oldest last_accessed (Python sorted is stable; the ties keep dict
order) until the size is back to max_size. -/
def maybeEvict {ρ : Type} (mem : QueryMemory ρ) : QueryMemory ρ :=
  if mem.memories.length ≤ mem.maxSize then mem
  else
    let sortedEntries := sortLe
      (fun a b => decide (a.2.lastAccessed ≤ b.2.lastAccessed)) mem.memories
    let toRemove := mem.memories.length - mem.maxSize
    let removedKeys := (sortedEntries.take toRemove).map Prod.fst
    { mem with
      memories := mem.memories.filter (fun p => !(removedKeys.contains p.1)) }

/-- QueryMemory.store (the query_patterns statistics never read or
write memories and are omitted). -/
def storeMemory {ρ : Type} (mem : QueryMemory ρ) (q nq intent : String)
    (result : ρ) (execMs : ℚ) (sh : String) (now : ℚ) : QueryMemory ρ :=
  let entry : MemoryEntry ρ := ⟨q, nq, intent, result, execMs, sh, now, 1, now⟩
  maybeEvict { mem with memories := assocSet mem.memories (mkKey nq sh) entry }

/-- QueryMemory.recall: miss on an absent key; eviction plus None on a
stale entry; otherwise bump the access statistics and return the
entry. -/
def recallMemory {ρ : Type} (mem : QueryMemory ρ) (nq sh : String)
    (maxAge : ℚ) (now : ℚ) : Option (MemoryEntry ρ) × QueryMemory ρ :=
  let key := mkKey nq sh
  match mem.memories.lookup key with
  | none => (none, mem)
  | some entry =>
    if now - entry.createdAt > maxAge then
      (none, { mem with memories := mem.memories.filter (fun p => p.1 ≠ key) })
    else
      let entry' := { entry with
        accessCount := entry.accessCount + 1, lastAccessed := now }
      (some entry', { mem with memories := assocSet mem.memories key entry' })

/-- Reachable-state invariant of a memory at a point in time: unique
keys (a Python dict), within capacity (the constructor starts empty and
store evicts back to capacity), and no entry accessed in the future. -/
def MemWF {ρ : Type} (mem : QueryMemory ρ) (now : ℚ) : Prop :=
  (mem.memories.map Prod.fst).Nodup ∧
    mem.memories.length ≤ mem.maxSize ∧
    ∀ p ∈ mem.memories, p.2.lastAccessed ≤ now

/-! ## Rate limiter (lumaai/promptql/llm.py)

RateLimiter.acquire refills from wall-clock time; the elapsed time
since the previous refill is an explicit parameter, and the sleep is
reported as the computed wait instead of performed. -/

structure RateLimiterState where
  rpm : ℚ
  tokens : ℚ
deriving DecidableEq

/-- RateLimiter(requests_per_minute). -/
def mkRateLimiter (rpm : ℚ) : RateLimiterState :=
  ⟨rpm, rpm⟩

/-- RateLimiter.acquire: refill, then either sleep for
(1 - tokens) * 60 / rpm leaving zero tokens, or consume one token.
The first component is the computed wait when the call blocks. -/
def acquire (st : RateLimiterState) (elapsed : ℚ) :
    Option ℚ × RateLimiterState :=
  let tokens := min st.rpm (st.tokens + elapsed * (st.rpm / 60))
  if tokens < 1 then
    (some ((1 - tokens) * (60 / st.rpm)), { st with tokens := 0 })
  else
    (none, { st with tokens := tokens - 1 })

/-- A run of n consecutive acquire calls with no intervening elapsed
time, collecting each call's wait (none when it does not block). -/
def acquireRun (st : RateLimiterState) : Nat → List (Option ℚ) × RateLimiterState
  | 0 => ([], st)
  | n + 1 =>
    let r := acquire st 0
    let rest := acquireRun r.2 n
    (r.1 :: rest.1, rest.2)

/-! ## Statement-level fixtures and invariants -/

/-- Linear-chain invariant of the step builder: the counter counts the
steps, the i-th step carries id i+1, and its dependency list is empty
for the first step and exactly the previous id otherwise. -/
def ChainInv (acc : BuildAcc) : Prop :=
  acc.counter = acc.steps.length ∧
  (∀ i : Fin acc.steps.length, (acc.steps.get i).id = i.1 + 1) ∧
  (∀ i : Fin acc.steps.length,
    (acc.steps.get i).dependencies = if i.1 = 0 then [] else [i.1])

/-- Engine collaborators whose schema inference raises and everything
else succeeds, for exercising the exception boundary. -/
def failingInferCollabs : EngineCollabs Unit Unit Unit where
  enableCaching := false
  enableSchemaInference := true
  enableOptimization := false
  parallelExecution := false
  cacheGet := fun _ => none
  addQuery := .ok ()
  inferSchema := .error (.err "schema inference failed")
  createPlanC := fun _ _ => .ok ()
  requiresReasoningOfPlan := fun _ => false
  reasonC := fun _ _ _ => .ok []
  optimizeC := fun p _ => .ok p
  canParallelizePlan := fun _ => false
  executeParallelC := fun _ => .ok ()
  executeC := fun _ => .ok ()
  suggestionsC := fun _ _ _ => .ok []
  addResult := .ok ()
  suggestCompletionsC := fun _ _ => .ok []

/-- A scan step and a filter step already in pushed-down order, for the
optimizer pass-recording property. -/
def oScanStep : OStep :=
  ⟨some "scan", none, none, none, none, false, false⟩

def oFilterStep : OStep :=
  ⟨some "filter", some [⟨"age"⟩], none, none, none, false, false⟩

def scanFilterPlan : OPlan :=
  ⟨[oScanStep, oFilterStep], none⟩

/-! ## General lemmas about the helpers -/

theorem lookup_bucketInsert {κ ρ : Type} [DecidableEq κ]
    (idx : List (κ × List ρ)) (k : κ) (r : ρ) (v : κ) :
    ((bucketInsert idx k r).lookup v).getD [] =
      if v = k then ((idx.lookup v).getD []) ++ [r]
      else (idx.lookup v).getD [] := by
  induction idx with
  | nil =>
    by_cases h : v = k
    · subst h; simp [bucketInsert, List.lookup]
    · have hb : (v == k) = false := beq_eq_false_iff_ne.mpr h
      simp [bucketInsert, List.lookup, hb, h]
  | cons hd tl ih =>
    obtain ⟨k', vs⟩ := hd
    by_cases hk : k' = k
    · subst hk
      by_cases hv : v = k'
      · subst hv; simp [bucketInsert, List.lookup]
      · have hb : (v == k') = false := beq_eq_false_iff_ne.mpr hv
        simp [bucketInsert, List.lookup, hb, hv]
    · by_cases hv : v = k'
      · have hvk : ¬ v = k := by rw [hv]; exact hk
        have hb : (v == k') = true := beq_iff_eq.mpr hv
        simp [bucketInsert, hk, List.lookup, hb, hvk]
      · have hb : (v == k') = false := beq_eq_false_iff_ne.mpr hv
        simp [bucketInsert, hk, List.lookup, hb, ih]

theorem foldl_emit {α β : Type} (g : α → List β) (l : List α) :
    ∀ init : List β,
      l.foldl (fun acc x => acc ++ g x) init = init ++ l.flatMap g := by
  induction l with
  | nil => intro init; simp
  | cons x xs ih => intro init; simp [List.foldl_cons, ih]

theorem indexGet_buildRightIndex (rd : List Record) (rf : String) (v : Value) :
    indexGet (buildRightIndex rd rf) v = joinMatches rd rf v := by
  suffices h : ∀ idx : List (Value × List Record),
      indexGet (rd.foldl (fun i r => bucketInsert i (recordGet r rf) r) idx) v =
        indexGet idx v ++ joinMatches rd rf v by
    simpa [buildRightIndex, indexGet, List.lookup] using h []
  induction rd with
  | nil => intro idx; simp [joinMatches]
  | cons r rest ih =>
    intro idx
    rw [List.foldl_cons, ih]
    by_cases hv : recordGet r rf = v
    · have hkey : indexGet (bucketInsert idx (recordGet r rf) r) v
          = indexGet idx v ++ [r] := by
        simp [indexGet, lookup_bucketInsert, hv]
      rw [hkey]
      simp [joinMatches, List.filter_cons, hv, List.append_assoc]
    · have hkey : indexGet (bucketInsert idx (recordGet r rf) r) v
          = indexGet idx v := by
        have hne : ¬ v = recordGet r rf := fun h => hv h.symm
        simp [indexGet, lookup_bucketInsert, hne]
      rw [hkey]
      simp [joinMatches, List.filter_cons, hv]

theorem insertLe_append_last {α : Type} (le : α → α → Bool) (x e : α)
    (l : List α) (hle : le x e = true) :
    insertLe le x (l ++ [e]) = insertLe le x l ++ [e] := by
  induction l with
  | nil => simp [insertLe, hle]
  | cons y ys ih =>
    by_cases h : le x y <;> simp [insertLe, h, ih]

theorem sortLe_append_max {α : Type} (le : α → α → Bool) (e : α)
    (l : List α) (h : ∀ x ∈ l, le x e = true) :
    sortLe le (l ++ [e]) = sortLe le l ++ [e] := by
  induction l with
  | nil => simp [sortLe, insertLe]
  | cons y ys ih =>
    have hy : le y e = true := h y (List.mem_cons_self _ _)
    have hys : ∀ x ∈ ys, le x e = true := fun x hx => h x (List.mem_cons_of_mem _ hx)
    simp only [List.cons_append, sortLe, List.foldr_cons]
    have ihe := ih hys
    simp only [sortLe] at ihe
    rw [ihe, insertLe_append_last le y e _ hy]

theorem sortLe_length {α : Type} (le : α → α → Bool) (l : List α) :
    (sortLe le l).length = l.length := by
  induction l with
  | nil => rfl
  | cons y ys ih =>
    have : ∀ (x : α) (m : List α), (insertLe le x m).length = m.length + 1 := by
      intro x m
      induction m with
      | nil => rfl
      | cons z zs ihm => by_cases h : le x z <;> simp [insertLe, h, ihm]
    simp [sortLe, List.foldr_cons, this]
    simpa [sortLe] using ih

theorem mem_of_mem_insertLe {α : Type} (le : α → α → Bool) (x y : α)
    (l : List α) (h : y ∈ insertLe le x l) : y = x ∨ y ∈ l := by
  induction l with
  | nil =>
    simp only [insertLe, List.mem_singleton] at h
    exact Or.inl h
  | cons z zs ih =>
    by_cases hc : le x z
    · simp only [insertLe, if_pos hc, List.mem_cons] at h
      rcases h with h | h | h
      · exact Or.inl h
      · exact Or.inr (by simp [h])
      · exact Or.inr (List.mem_cons_of_mem _ h)
    · simp only [insertLe, if_neg hc, List.mem_cons] at h
      rcases h with h | h
      · exact Or.inr (by simp [h])
      · rcases ih h with h' | h'
        · exact Or.inl h'
        · exact Or.inr (List.mem_cons_of_mem _ h')

theorem mem_of_mem_sortLe {α : Type} (le : α → α → Bool) (x : α)
    (l : List α) (h : x ∈ sortLe le l) : x ∈ l := by
  induction l with
  | nil => simp [sortLe] at h
  | cons y ys ih =>
    simp only [sortLe, List.foldr_cons] at h
    rcases mem_of_mem_insertLe le y x _ h with h' | h'
    · simp [h']
    · exact List.mem_cons_of_mem _ (ih (by simpa [sortLe] using h'))

theorem lookup_filter_not_removed {β : Type} (l : List (String × β))
    (ks : List String) (k : String) (hk : ¬ k ∈ ks) :
    (l.filter (fun p => !(ks.contains p.1))).lookup k = l.lookup k := by
  induction l with
  | nil => rfl
  | cons p rest ih =>
    have ih' : List.lookup k (rest.filter (fun p => !(decide (p.1 ∈ ks))))
        = List.lookup k rest := by simpa using ih
    by_cases hp : p.1 ∈ ks
    · have hne : (k == p.1) = false := by
        refine beq_eq_false_iff_ne.mpr ?_
        intro he
        exact hk (he ▸ hp)
      simp [List.filter_cons, hp, List.lookup, hne, ih']
    · by_cases h : k = p.1
      · have hb : (k == p.1) = true := beq_iff_eq.mpr h
        simp [List.filter_cons, hp, List.lookup, hb]
      · have hne : (k == p.1) = false := beq_eq_false_iff_ne.mpr h
        simp [List.filter_cons, hp, List.lookup, hne, ih']

theorem lookup_filter_ne_key {β : Type} (l : List (String × β)) (k : String) :
    (l.filter (fun p => p.1 ≠ k)).lookup k = none := by
  induction l with
  | nil => rfl
  | cons p rest ih =>
    by_cases h : p.1 = k
    · have hd : (decide (p.1 ≠ k)) = false := by simp [h]
      simpa only [List.filter_cons, hd, Bool.false_eq_true, if_false] using ih
    · have hd : (decide (p.1 ≠ k)) = true := by simp [h]
      have hne : (k == p.1) = false :=
        beq_eq_false_iff_ne.mpr (fun he => h he.symm)
      simp only [List.filter_cons, hd, if_true, List.lookup, hne]
      exact ih

theorem lookup_assocSet_self {β : Type} (l : List (String × β)) (k : String)
    (v : β) : (assocSet l k v).lookup k = some v := by
  induction l with
  | nil => simp [assocSet, List.lookup]
  | cons p rest ih =>
    by_cases h : p.1 = k
    · simp [assocSet, h, List.lookup]
    · have hne : (k == p.1) = false := beq_eq_false_iff_ne.mpr (fun he => h he.symm)
      simp [assocSet, h, List.lookup, hne, ih]

theorem assocSet_not_mem {β : Type} (l : List (String × β)) (k : String)
    (v : β) (h : ¬ k ∈ l.map Prod.fst) : assocSet l k v = l ++ [(k, v)] := by
  induction l with
  | nil => rfl
  | cons p rest ih =>
    have h1 : p.1 ≠ k := by
      intro he
      exact h (by simp [he])
    have h2 : ¬ k ∈ rest.map Prod.fst := by
      intro hm
      exact h (by simp [hm])
    simp [assocSet, h1, ih h2]

theorem assocSet_mem_length {β : Type} (l : List (String × β)) (k : String)
    (v : β) (h : k ∈ l.map Prod.fst) :
    (assocSet l k v).length = l.length := by
  induction l with
  | nil => simp at h
  | cons p rest ih =>
    by_cases h1 : p.1 = k
    · simp [assocSet, h1]
    · have h2 : k ∈ rest.map Prod.fst := by
        rcases List.mem_map.mp h with ⟨q, hq, he⟩
        rcases List.mem_cons.mp hq with rfl | hq'
        · exact absurd he h1
        · exact List.mem_map.mpr ⟨q, hq', he⟩
      simp [assocSet, h1, ih h2]

theorem chainInv_pushChain (acc : BuildAcc) (ty : StepType) (d : String)
    (p : StepParams) (h : ChainInv acc) (hne : acc.steps ≠ []) :
    ChainInv (pushStep acc ty d p [lastId acc]) ∧
      (pushStep acc ty d p [lastId acc]).steps ≠ [] := by
  obtain ⟨hc, hid, hdep⟩ := h
  have hn : 0 < acc.steps.length := List.length_pos.mpr hne
  have hlast : lastId acc = acc.steps.length := by
    have hlt : acc.steps.length - 1 < acc.steps.length := by omega
    have h1 : acc.steps.getLast? = some (acc.steps.getLast hne) :=
      List.getLast?_eq_getLast _ hne
    have h3 := hid ⟨acc.steps.length - 1, hlt⟩
    have h4 : lastId acc = (acc.steps.get ⟨acc.steps.length - 1, hlt⟩).id := by
      rw [lastId, h1]
      have h2 : acc.steps.getLast hne
          = acc.steps.get ⟨acc.steps.length - 1, hlt⟩ := by
        rw [List.getLast_eq_getElem, List.get_eq_getElem]
      rw [h2]
      rfl
    have h5 : lastId acc = acc.steps.length - 1 + 1 := h4.trans h3
    omega
  have hstep : (pushStep acc ty d p [lastId acc]).steps
      = acc.steps ++ [mkStep acc.counter ty d p [lastId acc]] := rfl
  have hlen : (pushStep acc ty d p [lastId acc]).steps.length
      = acc.steps.length + 1 := by simp [hstep]
  refine ⟨⟨?_, ?_, ?_⟩, ?_⟩
  · simp [pushStep, hc]
  · intro i
    have hi2 : i.1 < acc.steps.length + 1 := hlen ▸ i.isLt
    by_cases hi : i.1 < acc.steps.length
    · have hget : (pushStep acc ty d p [lastId acc]).steps.get i
          = acc.steps.get ⟨i.1, hi⟩ := by
        simp only [List.get_eq_getElem, hstep]
        exact List.getElem_append_left hi
      rw [hget]
      exact hid ⟨i.1, hi⟩
    · have hieq : i.1 = acc.steps.length := by omega
      have hget : (pushStep acc ty d p [lastId acc]).steps.get i
          = mkStep acc.counter ty d p [lastId acc] := by
        simp only [List.get_eq_getElem, hstep]
        exact List.getElem_concat_length _ _ _ hieq _
      rw [hget]
      simp [mkStep, hc, hieq]
  · intro i
    have hi2 : i.1 < acc.steps.length + 1 := hlen ▸ i.isLt
    by_cases hi : i.1 < acc.steps.length
    · have hget : (pushStep acc ty d p [lastId acc]).steps.get i
          = acc.steps.get ⟨i.1, hi⟩ := by
        simp only [List.get_eq_getElem, hstep]
        exact List.getElem_append_left hi
      rw [hget]
      exact hdep ⟨i.1, hi⟩
    · have hieq : i.1 = acc.steps.length := by omega
      have hget : (pushStep acc ty d p [lastId acc]).steps.get i
          = mkStep acc.counter ty d p [lastId acc] := by
        simp only [List.get_eq_getElem, hstep]
        exact List.getElem_concat_length _ _ _ hieq _
      rw [hget]
      have hz : ¬ i.1 = 0 := by omega
      simp [mkStep, hlast, hieq, hz, hne]
  · simp [pushStep]

theorem chainInv_stageJoins_fold (l : List String) :
    ∀ acc : BuildAcc, ChainInv acc → acc.steps ≠ [] →
      ChainInv (l.foldl
        (fun a sec =>
          pushStep a .join ("Join with " ++ sec) (.joinWith sec "inner")
            [lastId a]) acc) ∧
      (l.foldl
        (fun a sec =>
          pushStep a .join ("Join with " ++ sec) (.joinWith sec "inner")
            [lastId a]) acc).steps ≠ [] := by
  induction l with
  | nil => intro acc h hne; exact ⟨h, hne⟩
  | cons sec rest ih =>
    intro acc h hne
    have hp := chainInv_pushChain acc .join ("Join with " ++ sec)
      (.joinWith sec "inner") h hne
    simpa using ih _ hp.1 hp.2

theorem chainInv_buildAcc (prompt : String) (intents : List String)
    (entities : Entities) (timeConstraints : Option TimeConstraint)
    (schema : Option PSchema) (context : Option Unit) :
    ChainInv (buildAcc prompt intents entities timeConstraints schema context) ∧
      (buildAcc prompt intents entities timeConstraints schema context).steps
        ≠ [] := by
  have h0 : ∀ primary : String,
      ChainInv (stageFetch primary) ∧ (stageFetch primary).steps ≠ [] := by
    intro primary
    have hlen1 : (stageFetch primary).steps.length = 1 := rfl
    refine ⟨⟨rfl, ?_, ?_⟩, by simp [stageFetch, pushStep]⟩
    · intro i
      have hz : i.1 = 0 := by have h' := i.isLt; omega
      simp [stageFetch, pushStep, mkStep, List.get_eq_getElem, hz]
    · intro i
      have hz : i.1 = 0 := by have h' := i.isLt; omega
      simp [stageFetch, pushStep, mkStep, List.get_eq_getElem, hz]
  have h1 : ∀ (primary : String) (tc : Option TimeConstraint) (acc : BuildAcc),
      ChainInv acc → acc.steps ≠ [] →
        ChainInv (stageTime primary tc acc) ∧ (stageTime primary tc acc).steps ≠ [] := by
    intro primary tc acc h hne
    cases tc with
    | none => exact ⟨h, hne⟩
    | some t => exact chainInv_pushChain acc _ _ _ h hne
  have h2 : ∀ acc : BuildAcc, ChainInv acc → acc.steps ≠ [] →
      ChainInv (stageFilter prompt intents entities acc) ∧
        (stageFilter prompt intents entities acc).steps ≠ [] := by
    intro acc h hne
    unfold stageFilter
    by_cases hf : intents.contains "filter"
    · simp only [hf, if_true]
      by_cases hcnd : (buildFilterConditions prompt entities).isEmpty
      · simp [hcnd]; exact ⟨h, hne⟩
      · simp only [hcnd, not_false_eq_true, if_true]
        exact chainInv_pushChain acc _ _ _ h hne
    · simp only [hf, if_false]; exact ⟨h, hne⟩
  have h3 : ∀ acc : BuildAcc, ChainInv acc → acc.steps ≠ [] →
      ChainInv (stageJoins intents entities.collections acc) ∧
        (stageJoins intents entities.collections acc).steps ≠ [] := by
    intro acc h hne
    unfold stageJoins
    by_cases hj : intents.contains "join" && entities.collections.length > 1
    · simp only [hj, if_true]
      exact chainInv_stageJoins_fold _ acc h hne
    · simp only [hj, if_false]; exact ⟨h, hne⟩
  have h4 : ∀ acc : BuildAcc, ChainInv acc → acc.steps ≠ [] →
      ChainInv (stageGroup prompt intents entities acc) ∧
        (stageGroup prompt intents entities acc).steps ≠ [] := by
    intro acc h hne
    unfold stageGroup
    by_cases hg : intents.contains "group"
    · simp only [hg, if_true]; exact chainInv_pushChain acc _ _ _ h hne
    · simp only [hg, if_false]; exact ⟨h, hne⟩
  have h5 : ∀ acc : BuildAcc, ChainInv acc → acc.steps ≠ [] →
      ChainInv (stageAgg prompt intents acc) ∧
        (stageAgg prompt intents acc).steps ≠ [] := by
    intro acc h hne
    unfold stageAgg
    by_cases ha : intents.contains "aggregate" || intents.contains "count"
    · simp only [ha, if_true]; exact chainInv_pushChain acc _ _ _ h hne
    · simp only [ha, if_false]; exact ⟨h, hne⟩
  have h6 : ∀ acc : BuildAcc, ChainInv acc → acc.steps ≠ [] →
      ChainInv (stageCompare intents acc) ∧
        (stageCompare intents acc).steps ≠ [] := by
    intro acc h hne
    unfold stageCompare
    by_cases hcmp : intents.contains "compare"
    · simp only [hcmp, if_true]; exact chainInv_pushChain acc _ _ _ h hne
    · simp only [hcmp, if_false]; exact ⟨h, hne⟩
  have h7 : ∀ acc : BuildAcc, ChainInv acc → acc.steps ≠ [] →
      ChainInv (stageSort prompt intents acc) ∧
        (stageSort prompt intents acc).steps ≠ [] := by
    intro acc h hne
    unfold stageSort
    by_cases hs : intents.contains "sort"
    · simp only [hs, if_true]; exact chainInv_pushChain acc _ _ _ h hne
    · simp only [hs, if_false]; exact ⟨h, hne⟩
  have h8 : ∀ acc : BuildAcc, ChainInv acc → acc.steps ≠ [] →
      ChainInv (stageLimit prompt acc) ∧ (stageLimit prompt acc).steps ≠ [] := by
    intro acc h hne
    unfold stageLimit
    cases extractLimit prompt with
    | none => exact ⟨h, hne⟩
    | some n => exact chainInv_pushChain acc _ _ _ h hne
  unfold buildAcc
  have ha := h0 (match entities.collections with
    | c :: _ => c
    | [] => inferCollection prompt schema)
  have hb := h1 (match entities.collections with
    | c :: _ => c
    | [] => inferCollection prompt schema) timeConstraints _ ha.1 ha.2
  have hc := h2 _ hb.1 hb.2
  have hd := h3 _ hc.1 hc.2
  have he := h4 _ hd.1 hd.2
  have hf := h5 _ he.1 he.2
  have hg := h6 _ hf.1 hf.2
  have hh := h7 _ hg.1 hg.2
  exact h8 _ hh.1 hh.2

/-- The step ids of a chain-invariant step list are strictly increasing
in emission order. -/
theorem chainInv_ids_increasing (acc : BuildAcc) (h : ChainInv acc) :
    List.Pairwise (fun a b => a < b) (acc.steps.map QueryStep.id) := by
  obtain ⟨-, hid, -⟩ := h
  rw [List.pairwise_iff_getElem]
  intro i j hi hj hij
  rw [List.length_map] at hi hj
  have hgi : (acc.steps.map QueryStep.id)[i] = (acc.steps.get ⟨i, hi⟩).id := by
    simp [List.getElem_map]
  have hgj : (acc.steps.map QueryStep.id)[j] = (acc.steps.get ⟨j, hj⟩).id := by
    simp [List.getElem_map]
  have e1 : (acc.steps.get ⟨i, hi⟩).id = i + 1 := hid ⟨i, hi⟩
  have e2 : (acc.steps.get ⟨j, hj⟩).id = j + 1 := hid ⟨j, hj⟩
  rw [hgi, hgj, e1, e2]
  omega

/-- Every bucket of a grouping of a list with pairwise distinct keys is
a singleton. -/
theorem groupBuckets_nodup_singletons {κ ρ : Type} [DecidableEq κ]
    (l : List (κ × ρ)) (h : (l.map Prod.fst).Nodup) :
    ∀ g ∈ groupBuckets l, g.2.length = 1 := by
  suffices hgen : ∀ acc : List (κ × List ρ),
      (∀ g ∈ acc, g.2.length = 1) →
      (∀ k ∈ acc.map Prod.fst, ¬ k ∈ l.map Prod.fst) →
      ∀ g ∈ l.foldl (fun gs p => bucketInsert gs p.1 p.2) acc, g.2.length = 1 by
    intro g hg
    exact hgen [] (by simp) (by simp) g hg
  induction l with
  | nil =>
    intro acc hacc _ g hg
    exact hacc g hg
  | cons p rest ih =>
    intro acc hacc hdisj g hg
    rw [List.map_cons, List.nodup_cons] at h
    have hnotin : ¬ p.1 ∈ acc.map Prod.fst := by
      intro hmem
      exact hdisj p.1 hmem (by simp)
    have hbi : bucketInsert acc p.1 p.2 = acc ++ [(p.1, [p.2])] := by
      clear hg hdisj hacc ih h
      induction acc with
      | nil => rfl
      | cons q qs ihq =>
        have hq : ¬ q.1 = p.1 := by
          intro he
          exact hnotin (by simp [he])
        have hq2 : ¬ p.1 ∈ qs.map Prod.fst := by
          intro hm
          exact hnotin (by simp [hm])
        simp [bucketInsert, hq, ihq hq2]
    rw [List.foldl_cons, hbi] at hg
    refine ih h.2 (acc ++ [(p.1, [p.2])]) ?_ ?_ g hg
    · intro g2 hg2
      rcases List.mem_append.mp hg2 with h' | h'
      · exact hacc g2 h'
      · simp at h'
        simp [h']
    · intro k hk
      rw [List.map_append] at hk
      rcases List.mem_append.mp hk with h' | h'
      · intro hm
        exact hdisj k h' (by simp [hm])
      · simp only [List.map_cons, List.map_nil, List.mem_singleton] at h'
        intro hm
        exact h.1 (h' ▸ hm)

theorem storeMemory_lookup {ρ : Type} (mem : QueryMemory ρ)
    (q nq intent : String) (result : ρ) (execMs : ℚ) (sh : String) (now : ℚ)
    (hwf : MemWF mem now) (hcap : 1 ≤ mem.maxSize) :
    (storeMemory mem q nq intent result execMs sh now).memories.lookup
        (mkKey nq sh)
      = some ⟨q, nq, intent, result, execMs, sh, now, 1, now⟩ := by
  obtain ⟨hnodup, hlen, hacc⟩ := hwf
  set le : (String × MemoryEntry ρ) → (String × MemoryEntry ρ) → Bool :=
    fun a b => decide (a.2.lastAccessed ≤ b.2.lastAccessed) with hle
  set entry : MemoryEntry ρ := ⟨q, nq, intent, result, execMs, sh, now, 1, now⟩
    with hentry
  set mems' := assocSet mem.memories (mkKey nq sh) entry with hmems
  have hself : mems'.lookup (mkKey nq sh) = some entry :=
    lookup_assocSet_self _ _ _
  by_cases hmem : mkKey nq sh ∈ mem.memories.map Prod.fst
  · have hlen' : mems'.length = mem.memories.length :=
      assocSet_mem_length _ _ _ hmem
    have hnoevict : mems'.length ≤ mem.maxSize := by omega
    have hstore : (storeMemory mem q nq intent result execMs sh now).memories
        = mems' := by
      unfold storeMemory maybeEvict
      rw [if_pos hnoevict]
    rw [hstore]
    exact hself
  · have happ : mems' = mem.memories ++ [(mkKey nq sh, entry)] :=
      assocSet_not_mem _ _ _ hmem
    have hlenapp : mems'.length = mem.memories.length + 1 := by
      rw [happ]; simp
    by_cases hover : mems'.length ≤ mem.maxSize
    · have hstore : (storeMemory mem q nq intent result execMs sh now).memories
          = mems' := by
        unfold storeMemory maybeEvict
        rw [if_pos hover]
      rw [hstore]
      exact hself
    · have hfull : mem.memories.length = mem.maxSize := by omega
      have hstore : (storeMemory mem q nq intent result execMs sh now).memories
          = mems'.filter (fun p =>
              !((((sortLe le mems').take
                (mems'.length - mem.maxSize)).map Prod.fst).contains p.1)) := by
        unfold storeMemory maybeEvict
        rw [if_neg hover]
      have hsorted : sortLe le mems'
          = sortLe le mem.memories ++ [(mkKey nq sh, entry)] := by
        rw [happ]
        refine sortLe_append_max _ _ _ ?_
        intro x hx
        exact decide_eq_true (hacc x hx)
      have hslen : (sortLe le mem.memories).length = mem.memories.length :=
        sortLe_length _ _
      have hne : sortLe le mem.memories ≠ [] := by
        intro hnil
        rw [hnil] at hslen
        simp at hslen
        omega
      obtain ⟨x0, xs, hx0⟩ := List.exists_cons_of_ne_nil hne
      have hx0mem : x0 ∈ mem.memories := by
        refine mem_of_mem_sortLe le x0 _ ?_
        rw [hx0]
        exact List.mem_cons_self _ _
      have hx0key : ¬ (mkKey nq sh) ∈ [x0.1] := by
        intro hk
        have he : x0.1 = mkKey nq sh := (List.mem_singleton.mp hk).symm
        exact hmem (List.mem_map.mpr ⟨x0, hx0mem, he⟩)
      have hone : mems'.length - mem.maxSize = 1 := by omega
      have htake : (sortLe le mems').take (mems'.length - mem.maxSize)
          = [x0] := by
        rw [hone, hsorted, hx0]
        simp
      rw [htake] at hstore
      simp only [List.map_cons, List.map_nil] at hstore
      rw [hstore]
      have hfilter := lookup_filter_not_removed mems' [x0.1] (mkKey nq sh)
        (by simpa using hx0key)
      rw [hfilter]
      exact hself

theorem acquire_consumes (rpm t : ℚ) (h1 : 1 ≤ t) (h2 : t ≤ rpm) :
    acquire ⟨rpm, t⟩ 0 = (none, ⟨rpm, t - 1⟩) := by
  unfold acquire
  have hmin : min (⟨rpm, t⟩ : RateLimiterState).rpm
      ((⟨rpm, t⟩ : RateLimiterState).tokens +
        0 * ((⟨rpm, t⟩ : RateLimiterState).rpm / 60)) = t := by
    show min rpm (t + 0 * (rpm / 60)) = t
    rw [zero_mul, add_zero]
    exact min_eq_right h2
  rw [hmin]
  have hnl : ¬ (t < 1) := not_lt.mpr h1
  simp [hnl]

theorem acquire_blocks_at_zero :
    acquire ⟨60, 0⟩ 0 = (some 1, ⟨60, 0⟩) := by
  unfold acquire
  have hmin : min (⟨60, 0⟩ : RateLimiterState).rpm
      ((⟨60, 0⟩ : RateLimiterState).tokens +
        0 * ((⟨60, 0⟩ : RateLimiterState).rpm / 60)) = 0 := by
    show min (60 : ℚ) (0 + 0 * (60 / 60)) = 0
    norm_num
  rw [hmin]
  norm_num

theorem acquireRun_drain (n : Nat) : n ≤ 60 → ∀ t : ℚ, t = (n : ℚ) →
    acquireRun ⟨60, t⟩ (n + 1)
      = (List.replicate n none ++ [some 1], ⟨60, 0⟩) := by
  induction n with
  | zero =>
    intro _ t ht
    have ht0 : t = 0 := by rw [ht]; norm_num
    subst ht0
    simp only [acquireRun, acquire_blocks_at_zero]
    rfl
  | succ k ih =>
    intro hn t ht
    have h1 : 1 ≤ t := by
      rw [ht]
      exact_mod_cast Nat.succ_le_succ (Nat.zero_le k)
    have h2 : t ≤ 60 := by
      rw [ht]
      exact_mod_cast hn
    have hr := acquire_consumes 60 t h1 h2
    have ht1 : t - 1 = (k : ℚ) := by
      rw [ht]
      push_cast
      ring
    have hrest := ih (by omega) (t - 1) ht1
    show (let r := acquire ⟨60, t⟩ 0
          let rest := acquireRun r.2 (k + 1)
          (r.1 :: rest.1, rest.2))
        = (List.replicate (k + 1) none ++ [some 1], ⟨60, 0⟩)
    rw [hr]
    simp only [hrest]
    simp [List.replicate_succ]

/-! ## Claim theorems -/

/-- C1.  For the prompt count users where age &gt; 21 and the schema with
collection users carrying field age, create_plan detects the count
intent and produces exactly a FETCH of users, a FILTER with the single
condition age &gt; 21, and an AGGREGATE with function count, whose total
estimated cost is 1.0 + 0.5 + 1.5 = 3.0. -/
theorem c1_count_users_scenario :
    (detectIntents "count users where age > 21").contains "count" = true ∧
    (createPlan "count users where age > 21"
        (some ⟨["users"], [("users", ["age"])]⟩) none Mode.simple).steps.map
        (fun s => (s.type, s.params)) =
      [(StepType.fetch, StepParams.fetchSrc "users"),
       (StepType.filter, StepParams.filterConds [⟨"age", ">", "21"⟩]),
       (StepType.aggregate, StepParams.aggregateFn "count")] ∧
    (createPlan "count users where age > 21"
        (some ⟨["users"], [("users", ["age"])]⟩) none Mode.simple).estimatedCost
      = 1 + mkRat 1 2 + mkRat 3 2 ∧
    (createPlan "count users where age > 21"
        (some ⟨["users"], [("users", ["age"])]⟩) none Mode.simple).estimatedCost
      = 3 := by
  have hcost : (createPlan "count users where age > 21"
      (some ⟨["users"], [("users", ["age"])]⟩) none Mode.simple).steps.map
        QueryStep.estimatedCost = [1, mkRat 1 2, mkRat 3 2] := by decide
  have hsum : (createPlan "count users where age > 21"
      (some ⟨["users"], [("users", ["age"])]⟩) none Mode.simple).estimatedCost
      = ((createPlan "count users where age > 21"
        (some ⟨["users"], [("users", ["age"])]⟩) none
          Mode.simple).steps.map QueryStep.estimatedCost).sum := rfl
  refine ⟨by decide, by decide, ?_, ?_⟩
  · rw [hsum, hcost]
    norm_num [Rat.mkRat_eq_div]
  · rw [hsum, hcost]
    norm_num [Rat.mkRat_eq_div]

/-- C2.  For every prompt, schema, context and mode, the plan produced
by create_plan has pairwise distinct step ids that are strictly
increasing in emission order, and every dependency entry is the id of a
step occurring strictly earlier in the step list (so the dependency
graph is acyclic). -/
theorem c2_step_ids_monotone_acyclic (prompt : String)
    (schema : Option PSchema) (context : Option Unit) (mode : Mode) :
    ((createPlan prompt schema context mode).steps.map QueryStep.id).Nodup ∧
    List.Pairwise (fun a b => a < b)
      ((createPlan prompt schema context mode).steps.map QueryStep.id) ∧
    ∀ i : Fin (createPlan prompt schema context mode).steps.length,
      ∀ d ∈ ((createPlan prompt schema context mode).steps.get i).dependencies,
        ∃ j : Fin (createPlan prompt schema context mode).steps.length,
          j.1 < i.1 ∧
            ((createPlan prompt schema context mode).steps.get j).id = d := by
  obtain ⟨hinv, hne⟩ := chainInv_buildAcc prompt (detectIntents prompt)
    (extractEntities prompt schema) (extractTimeConstraints prompt) schema
    context
  have hsteps : (createPlan prompt schema context mode).steps
      = (buildAcc prompt (detectIntents prompt)
          (extractEntities prompt schema) (extractTimeConstraints prompt)
          schema context).steps := rfl
  obtain ⟨hc, hid, hdep⟩ := hinv
  have hpair := chainInv_ids_increasing _ ⟨hc, hid, hdep⟩
  refine ⟨?_, ?_, ?_⟩
  · rw [hsteps]
    exact List.Pairwise.imp (fun h => Nat.ne_of_lt h) hpair
  · rw [hsteps]
    exact hpair
  · rw [hsteps]
    intro i d hd
    have hdeps := hdep i
    by_cases hz : i.1 = 0
    · rw [hdeps, if_pos hz] at hd
      simp at hd
    · rw [hdeps, if_neg hz] at hd
      have hdi : d = i.1 := by simpa using hd
      have hj : i.1 - 1 < (buildAcc prompt (detectIntents prompt)
          (extractEntities prompt schema) (extractTimeConstraints prompt)
          schema context).steps.length := by
        have := i.isLt; omega
      refine ⟨⟨i.1 - 1, hj⟩, by show i.1 - 1 < i.1; omega, ?_⟩
      have hidp : ((buildAcc prompt (detectIntents prompt)
          (extractEntities prompt schema) (extractTimeConstraints prompt)
          schema context).steps.get ⟨i.1 - 1, hj⟩).id = (i.1 - 1) + 1 :=
        hid ⟨i.1 - 1, hj⟩
      rw [hidp, hdi]
      omega

/-- C2 witness at the count-users scenario: the dependency entry of the
second step is the id of an earlier step. -/
theorem c2_step_ids_monotone_acyclic_witness :
    ∃ j : Fin (createPlan "count users where age > 21"
        (some ⟨["users"], [("users", ["age"])]⟩) none Mode.simple).steps.length,
      j.1 < 1 ∧
        ((createPlan "count users where age > 21"
          (some ⟨["users"], [("users", ["age"])]⟩) none
            Mode.simple).steps.get j).id = 1 := by
  exact (c2_step_ids_monotone_acyclic "count users where age > 21"
      (some ⟨["users"], [("users", ["age"])]⟩) none Mode.simple).2.2
    ⟨1, by decide⟩ 1 (by decide)

/-- C3.  For every backend, left input, right collection and equality
join key: the left join emits, per left row, the merged matches or the
unchanged row when no match exists (so every left row is represented
and unmatched rows carry no right-side fields), while the inner join
emits only the merged matches, omitting exactly the unmatched left
rows. -/
theorem c3_join_semantics (scan : String → List Record)
    (leftData : List Record) (rc onLeft onRight : String) :
    (executeJoin scan leftData rc onLeft onRight "left" =
      leftData.flatMap (fun lr =>
        let ms := joinMatches (scan rc) onRight (recordGet lr onLeft)
        if ms.isEmpty then [lr]
        else ms.map (fun rr => dictMerge lr rr))) ∧
    (executeJoin scan leftData rc onLeft onRight "inner" =
      leftData.flatMap (fun lr =>
        (joinMatches (scan rc) onRight (recordGet lr onLeft)).map
          (fun rr => dictMerge lr rr))) ∧
    (∀ lr ∈ leftData,
      joinMatches (scan rc) onRight (recordGet lr onLeft) = [] →
        lr ∈ executeJoin scan leftData rc onLeft onRight "left") := by
  have hchar : ∀ jt : String, jt = "left" ∨ jt = "inner" →
      executeJoinData leftData (scan rc) onLeft onRight jt =
        leftData.flatMap (fun lr =>
          let ms := joinMatches (scan rc) onRight (recordGet lr onLeft)
          if ¬ ms.isEmpty then ms.map (fun rr => dictMerge lr rr)
          else if jt = "left" then [lr] else []) := by
    intro jt hjtc
    by_cases hl : leftData.isEmpty
    · rw [List.isEmpty_iff] at hl
      subst hl
      simp [executeJoinData]
    · by_cases hr : (scan rc).isEmpty
      · rw [List.isEmpty_iff] at hr
        rcases hjtc with hjt | hjt
        · subst hjt
          simp [executeJoinData, hl, hr, joinMatches]
        · subst hjt
          simp [executeJoinData, hl, hr, joinMatches]
      · have hbody : (fun (result : List Record) (leftRecord : Record) =>
            let rightMatches :=
              indexGet (buildRightIndex (scan rc) onRight)
                (recordGet leftRecord onLeft)
            if ¬ rightMatches.isEmpty then
              result ++ rightMatches.map (fun rr => dictMerge leftRecord rr)
            else if jt = "left" then result ++ [leftRecord]
            else result) =
            (fun result lr => result ++
              (let ms := joinMatches (scan rc) onRight (recordGet lr onLeft)
               if ¬ ms.isEmpty then ms.map (fun rr => dictMerge lr rr)
               else if jt = "left" then [lr] else [])) := by
          funext result lr
          rw [indexGet_buildRightIndex]
          by_cases hm : (joinMatches (scan rc) onRight (recordGet lr onLeft)).isEmpty
          · by_cases hjt : jt = "left" <;> simp [hm, hjt]
          · simp [hm]
        simp only [executeJoinData, if_neg hl, if_neg hr]
        rw [hbody, foldl_emit]
        simp
  refine ⟨?_, ?_, ?_⟩
  · rw [executeJoin, hchar "left" (Or.inl rfl)]
    refine List.flatMap_congr ?_
    intro lr _
    by_cases hm : (joinMatches (scan rc) onRight (recordGet lr onLeft)).isEmpty
    · simp [hm]
    · simp [hm]
  · rw [executeJoin, hchar "inner" (Or.inr rfl)]
    refine List.flatMap_congr ?_
    intro lr _
    by_cases hm : (joinMatches (scan rc) onRight (recordGet lr onLeft)).isEmpty
    · rw [List.isEmpty_iff] at hm
      simp [hm]
    · simp [hm]
  · intro lr hmem hnone
    rw [executeJoin, hchar "left" (Or.inl rfl)]
    refine List.mem_flatMap.mpr ⟨lr, hmem, ?_⟩
    have hml : (joinMatches (scan rc) onRight (recordGet lr onLeft)).isEmpty
        = true := by simp [hnone]
    simp [hml]

/-- C3 witness at a concrete join: one matching and one unmatched left
row. -/
theorem c3_join_semantics_witness :
    [("id", Value.num 2)] ∈
      executeJoin (fun _ => [[("uid", Value.num 1), ("x", Value.str "m")]])
        [[("id", Value.num 1)], [("id", Value.num 2)]] "orders" "id" "uid"
        "left" := by
  refine (c3_join_semantics (fun _ => [[("uid", Value.num 1), ("x", Value.str "m")]])
      [[("id", Value.num 1)], [("id", Value.num 2)]] "orders" "id" "uid").2.2
    [("id", Value.num 2)] (by decide) (by decide)

/-- C4.  Evaluation of _execute_sort at a two-row input: under
direction desc the record with a null sort-field value is emitted
first, before the non-null record, while under asc it is emitted last.
The code comment on the sort key says nulls last, and the specification
says nulls are sorted last regardless of direction, so the descending
branch contradicts both. -/
theorem c4_sort_nulls_desc_eval :
    executeSort [[("a", Value.num 1)], [("a", Value.null)]] ["a"] "desc"
      = [[("a", Value.null)], [("a", Value.num 1)]] ∧
    recordGet [("a", Value.null)] "a" = Value.null ∧
    recordGet [("a", Value.num 1)] "a" ≠ Value.null ∧
    executeSort [[("a", Value.num 1)], [("a", Value.null)]] ["a"] "asc"
      = [[("a", Value.num 1)], [("a", Value.null)]] := by
  exact ⟨by decide, by decide, by decide, by decide⟩

/-- C10.  For every plan produced by create_plan the can_parallelize
flag is false: the first step has an empty dependency list, every
subsequent step depends exactly on the id of the immediately preceding
step, and consequently no two steps share an identical dependency
set. -/
theorem c10_no_parallel_linear_chain (prompt : String)
    (schema : Option PSchema) (context : Option Unit) (mode : Mode) :
    (createPlan prompt schema context mode).canParallelize = false ∧
    (∀ h0 : 0 < (createPlan prompt schema context mode).steps.length,
      ((createPlan prompt schema context mode).steps.get ⟨0, h0⟩).dependencies
        = []) ∧
    (∀ i, ∀ hi : i + 1 < (createPlan prompt schema context mode).steps.length,
      ((createPlan prompt schema context mode).steps.get
          ⟨i + 1, hi⟩).dependencies
        = [((createPlan prompt schema context mode).steps.get
            ⟨i, by omega⟩).id]) ∧
    List.Pairwise (fun s t => s.dependencies ≠ t.dependencies)
      (createPlan prompt schema context mode).steps := by
  obtain ⟨⟨hc, hid, hdep⟩, hne⟩ := chainInv_buildAcc prompt
    (detectIntents prompt) (extractEntities prompt schema)
    (extractTimeConstraints prompt) schema context
  have hcp : (createPlan prompt schema context mode).canParallelize
      = canParallelizeOf ((buildAcc prompt (detectIntents prompt)
          (extractEntities prompt schema) (extractTimeConstraints prompt)
          schema context).steps) := rfl
  refine ⟨?_, ?_, ?_, ?_⟩
  · rw [hcp]
    set steps := (buildAcc prompt (detectIntents prompt)
      (extractEntities prompt schema) (extractTimeConstraints prompt)
      schema context).steps with hsdef
    have hkeys : (((steps.map
        (fun s => (depKey s.dependencies, s.id))).map Prod.fst)).Nodup := by
      rw [List.nodup_iff_getElem?_ne_getElem?]
      intro i j hij hj
      rw [List.length_map, List.length_map] at hj
      have hi : i < steps.length := by omega
      have hgi : ((steps.map
          (fun s => (depKey s.dependencies, s.id))).map Prod.fst)[i]? =
          some (depKey (steps.get ⟨i, hi⟩).dependencies) := by
        rw [List.getElem?_map, List.getElem?_map]
        simp [List.getElem?_eq_getElem hi]
      have hgj : ((steps.map
          (fun s => (depKey s.dependencies, s.id))).map Prod.fst)[j]? =
          some (depKey (steps.get ⟨j, hj⟩).dependencies) := by
        rw [List.getElem?_map, List.getElem?_map]
        simp [List.getElem?_eq_getElem hj]
      rw [hgi, hgj]
      intro hcon
      have hvals : depKey (steps.get ⟨i, hi⟩).dependencies
          = depKey (steps.get ⟨j, hj⟩).dependencies := by
        simpa using hcon
      rw [hdep ⟨i, hi⟩, hdep ⟨j, hj⟩] at hvals
      by_cases hiz : i = 0
      · have hjz : ¬ (j = 0) := by omega
        simp [hiz, hjz, depKey, sortLe, insertLe] at hvals
      · by_cases hjz : j = 0
        · simp [hiz, hjz, depKey, sortLe, insertLe] at hvals
        · simp [hiz, hjz, depKey, sortLe, insertLe] at hvals
          omega
    have hsing := groupBuckets_nodup_singletons _ hkeys
    rw [canParallelizeOf, List.any_eq_false]
    intro g hg
    have := hsing g hg
    simp [this]
  · intro h0
    have hd := hdep ⟨0, h0⟩
    simpa using hd
  · intro i hi
    have hi2 : i < (createPlan prompt schema context mode).steps.length := by
      omega
    have hd1 : ((createPlan prompt schema context mode).steps.get
        ⟨i + 1, hi⟩).dependencies = if i + 1 = 0 then [] else [i + 1] :=
      hdep ⟨i + 1, hi⟩
    have hd2 : ((createPlan prompt schema context mode).steps.get
        ⟨i, hi2⟩).id = i + 1 := hid ⟨i, hi2⟩
    rw [hd1]
    simp only [Nat.succ_ne_zero, if_false]
    congr 1
    exact hd2.symm
  · rw [List.pairwise_iff_getElem]
    intro i j hi hj hij
    have hgi : ((createPlan prompt schema context mode).steps.get
        ⟨i, hi⟩).dependencies = if i = 0 then [] else [i] := hdep ⟨i, hi⟩
    have hgj : ((createPlan prompt schema context mode).steps.get
        ⟨j, hj⟩).dependencies = if j = 0 then [] else [j] := hdep ⟨j, hj⟩
    rw [List.get_eq_getElem] at hgi hgj
    rw [hgi, hgj]
    by_cases hiz : i = 0
    · have hjz : ¬ (j = 0) := by omega
      simp [hiz, hjz]
    · by_cases hjz : j = 0
      · simp [hiz, hjz]
      · simp only [hiz, hjz, if_false]
        simp
        omega

/-- C10 witness at the count-users scenario: the flag is false, the
first step has no dependencies, the second depends on the first. -/
theorem c10_no_parallel_linear_chain_witness :
    (createPlan "count users where age > 21"
      (some ⟨["users"], [("users", ["age"])]⟩) none
        Mode.simple).canParallelize = false ∧
    ((createPlan "count users where age > 21"
      (some ⟨["users"], [("users", ["age"])]⟩) none
        Mode.simple).steps.get ⟨0, by decide⟩).dependencies = [] := by
  refine ⟨(c10_no_parallel_linear_chain "count users where age > 21"
      (some ⟨["users"], [("users", ["age"])]⟩) none Mode.simple).1, ?_⟩
  exact (c10_no_parallel_linear_chain "count users where age > 21"
      (some ⟨["users"], [("users", ["age"])]⟩) none Mode.simple).2.1
    (by decide)

/-- C8 counterexample.  A plan whose FILTER step already immediately
follows the scan: optimize still records predicate_pushdown although
the optimized step order equals the original. -/
theorem c8_pushdown_recorded_without_change :
    ((optimize 7 scanFilterPlan none).optimizationsApplied.contains
      "predicate_pushdown") = true ∧
    (optimize 7 scanFilterPlan none).optimizedPlan.steps
      = scanFilterPlan.steps := by
  exact ⟨by decide, by decide⟩

/-- C8 amended.  The predicate-pushdown pass records itself exactly
when the plan has at least one FILTER step and at least one other step,
regardless of whether the rewritten order differs from the original; in
particular it is recorded for a plan whose FILTER steps already
immediately follow the scan. -/
theorem c8_pushdown_recording_amended (log2of100 : ℚ) (p : OPlan)
    (schema : Option OSchema) :
    ((optimize log2of100 p schema).optimizationsApplied.contains
        "predicate_pushdown") = true ↔
      (¬ (p.steps.filter (fun s => s.operation == some "filter")).isEmpty ∧
        ¬ (p.steps.filter
            (fun s => !(s.operation == some "filter"))).isEmpty) := by
  have hopt : (optimize log2of100 p schema).optimizationsApplied
      = (if (pushdownPredicates p).2 then ["predicate_pushdown"] else []) ++
        ((if (reorderJoins (pushdownPredicates p).1 schema).2 then
            ["join_reorder"] else []) ++
         ((if (pruneProjections
              (reorderJoins (pushdownPredicates p).1 schema).1 schema).2 then
            ["projection_pruning"] else []) ++
          ((if (selectIndexes (pruneProjections
                (reorderJoins (pushdownPredicates p).1 schema).1 schema).1
                  schema).2 then
              ["index_selection"] else []) ++
           ((if (optimizeAggregations (selectIndexes (pruneProjections
                  (reorderJoins (pushdownPredicates p).1 schema).1 schema).1
                    schema).1 schema).2 then
              ["aggregation_optimization"] else []) ++
            (if (flattenSubqueries (optimizeAggregations (selectIndexes
                  (pruneProjections (reorderJoins (pushdownPredicates p).1
                    schema).1 schema).1 schema).1 schema).1).2 then
              ["subquery_flattening"] else []))))) := by
    simp [optimize, List.append_assoc]
  have hpd : (pushdownPredicates p).2 = true ↔
      (¬ (p.steps.filter (fun s => s.operation == some "filter")).isEmpty ∧
        ¬ (p.steps.filter
            (fun s => !(s.operation == some "filter"))).isEmpty) := by
    by_cases h1 : (p.steps.filter (fun s => s.operation == some "filter")).isEmpty
    · simp [pushdownPredicates, h1]
    · by_cases h2 : (p.steps.filter
          (fun s => !(s.operation == some "filter"))).isEmpty
      · simp [pushdownPredicates, h1, h2]
      · simp [pushdownPredicates, h1, h2]
  rw [hopt, ← hpd]
  by_cases hb : (pushdownPredicates p).2 <;>
    simp [hb, List.contains]

/-- C8 witness: the amended recording condition instantiated at the
scan-then-filter plan. -/
theorem c8_pushdown_recording_amended_witness :
    ((optimize 7 scanFilterPlan none).optimizationsApplied.contains
      "predicate_pushdown") = true :=
  (c8_pushdown_recording_amended 7 scanFilterPlan none).mpr
    ⟨by decide, by decide⟩

/-- C9.  For a rate limiter built with rpm = 60, sixty consecutive
acquires with no elapsed time all return without entering the sleeping
branch, and the sixty-first blocks with a computed wait of
(1 - tokens) * 60 / rpm = 1 second, i.e. 60 / rpm. -/
theorem c9_rate_limiter_bound :
    (acquireRun (mkRateLimiter 60) 61).1
      = List.replicate 60 none ++ [some 1] ∧
    (1 : ℚ) = (1 - 0) * (60 / 60) ∧ (1 : ℚ) = 60 / 60 := by
  refine ⟨?_, by norm_num, by norm_num⟩
  have h := acquireRun_drain 60 (by omega) 60 (by norm_num)
  rw [show mkRateLimiter 60 = (⟨60, 60⟩ : RateLimiterState) from rfl,
    show (61 : Nat) = 60 + 1 from rfl, h]

/-- C6 counterexample.  PromptQLEngine.explain and suggest have no
exception handler: a failure raised by the schema-inference
collaborator escapes both entry points. -/
theorem c6_explain_suggest_propagate :
    engineExplain failingInferCollabs "count users"
      = Except.error (Exc.err "schema inference failed") ∧
    engineSuggest failingInferCollabs "co"
      = Except.error (Exc.err "schema inference failed") := by
  exact ⟨rfl, rfl⟩

/-- C6 amended.  Any failure raised inside the body of
PromptQLEngine.query, for arbitrary collaborators, is caught and
converted into a result with success false and the exception's message
as the error; explain and suggest propagate collaborator exceptions. -/
theorem c6_query_catches_all {σ π ρ : Type} (C : EngineCollabs σ π ρ)
    (prompt : String) (mode : Mode) (e : Exc)
    (h : queryBody C prompt mode = Except.error e) :
    (engineQuery C prompt mode).success = false ∧
    (engineQuery C prompt mode).error = some (excMessage e) := by
  unfold engineQuery
  rw [h]
  exact ⟨rfl, rfl⟩

/-- C6 witness: the failing schema-inference collaborators make the
query body fail, and query converts that into a failed result. -/
theorem c6_query_catches_all_witness :
    queryBody failingInferCollabs "count users" Mode.simple
      = Except.error (Exc.err "schema inference failed") ∧
    (engineQuery failingInferCollabs "count users" Mode.simple).success
      = false ∧
    (engineQuery failingInferCollabs "count users" Mode.simple).error
      = some (excMessage (Exc.err "schema inference failed")) :=
  ⟨rfl, c6_query_catches_all failingInferCollabs "count users" Mode.simple
    (Exc.err "schema inference failed") rfl⟩

/-- C7 counterexample.  A QueryMemory constructed with max_size 0
evicts the entry it has just stored, so an immediate recall misses:
the claim fails for this memory. -/
theorem c7_store_recall_maxsize_zero :
    (recallMemory
      (storeMemory (⟨0, []⟩ : QueryMemory Unit) "q" "nq" "i" () 1 "sh" 0)
      "nq" "sh" 3600 0).1 = none := by
  rfl

/-- C7 amended.  For every within-capacity memory with unique keys and
max_size at least 1: a store followed by a recall whose age does not
exceed max_age returns the stored entry; and a recall of an entry whose
age exceeds max_age returns none and removes the entry. -/
theorem c7_memory_ttl_amended {ρ : Type} (mem : QueryMemory ρ)
    (q nq intent : String) (result : ρ) (execMs : ℚ) (sh : String)
    (now now2 maxAge : ℚ) (hwf : MemWF mem now) (hcap : 1 ≤ mem.maxSize)
    (hage : now2 - now ≤ maxAge) :
    (∃ e : MemoryEntry ρ,
      (recallMemory (storeMemory mem q nq intent result execMs sh now)
          nq sh maxAge now2).1 = some e ∧
        e.query = q ∧ e.normalizedQuery = nq ∧ e.intent = intent ∧
        e.result = result ∧ e.schemaHash = sh ∧ e.createdAt = now) ∧
    (∀ (mem2 : QueryMemory ρ) (e0 : MemoryEntry ρ),
      mem2.memories.lookup (mkKey nq sh) = some e0 →
      now2 - e0.createdAt > maxAge →
        (recallMemory mem2 nq sh maxAge now2).1 = none ∧
        ((recallMemory mem2 nq sh maxAge now2).2).memories.lookup
          (mkKey nq sh) = none) := by
  constructor
  · have hlook := storeMemory_lookup mem q nq intent result execMs sh now
      hwf hcap
    have hcond : ¬ (now2 -
        (⟨q, nq, intent, result, execMs, sh, now, 1, now⟩ :
          MemoryEntry ρ).createdAt > maxAge) := by
      simp only
      exact not_lt.mpr hage
    refine ⟨{ (⟨q, nq, intent, result, execMs, sh, now, 1, now⟩ :
        MemoryEntry ρ) with accessCount := 2, lastAccessed := now2 }, ?_,
      rfl, rfl, rfl, rfl, rfl, rfl⟩
    unfold recallMemory
    simp only [hlook]
    rw [if_neg hcond]
  · intro mem2 e0 hlook hstale
    constructor
    · unfold recallMemory
      simp only [hlook]
      rw [if_pos hstale]
    · unfold recallMemory
      simp only [hlook]
      rw [if_pos hstale]
      exact lookup_filter_ne_key _ _

/-- C7 witness: a fresh store into an empty memory of capacity one is
recalled immediately, and a stale entry is evicted. -/
theorem c7_memory_ttl_amended_witness :
    (∃ e : MemoryEntry Unit,
      (recallMemory (storeMemory (⟨1, []⟩ : QueryMemory Unit)
          "q" "nq" "i" () 1 "sh" 0) "nq" "sh" 3600 0).1 = some e ∧
        e.query = "q" ∧ e.normalizedQuery = "nq" ∧ e.intent = "i" ∧
        e.result = () ∧ e.schemaHash = "sh" ∧ e.createdAt = 0) := by
  refine (c7_memory_ttl_amended (⟨1, []⟩ : QueryMemory Unit)
    "q" "nq" "i" () 1 "sh" 0 0 3600 ?_ ?_ ?_).1
  · exact ⟨by simp, by simp, by simp⟩
  · decide
  · norm_num

/-- C5 counterexample.  _execute_aggregate on the empty list with
function count and no field returns None (the if not data guard), not
the length 0 the claim asserts. -/
theorem c5_count_empty_counterexample :
    executeAggregate [] "count" none = Value.null ∧
    executeAggregate [] "count" none ≠ Value.num 0 := by
  exact ⟨by decide, by decide⟩

/-- C5 amended.  Aggregation is deterministic (it is a pure function of
its input), and count with no field returns the input length for every
non-empty input; on the empty input the aggregate returns null. -/
theorem c5_aggregate_amended (data : List Record) (f : Option String) :
    executeAggregate data "sum" f = executeAggregate data "sum" f ∧
    (data ≠ [] →
      executeAggregate data "count" none = Value.num (data.length : ℚ)) ∧
    executeAggregate [] "count" none = Value.null := by
  refine ⟨rfl, ?_, by decide⟩
  intro h
  have hne : data.isEmpty = false := by
    simpa [List.isEmpty_iff] using h
  simp [executeAggregate, hne, applyAggregate]

/-- C5 witness: a singleton input instantiating the amended count
property. -/
theorem c5_aggregate_amended_witness :
    executeAggregate [[("a", Value.num 3)]] "count" none
      = Value.num (([[("a", Value.num 3)]] : List Record).length : ℚ) :=
  (c5_aggregate_amended [[("a", Value.num 3)]] none).2.1 (by decide)

end PromptQL
